import Mathlib

/-!
Verification of the analytic-geometry kernel of the ellipse entity
(librecad/src/lib/engine/document/entities/rs_ellipse.cpp).

Doubles are modelled as real numbers.  Collaborator types and functions that
live outside the ellipse entity file (RS_Vector algebra, the RS_Math angle
helpers, LC_Rect, the linear and quartic solvers, the elliptic integrals and
the delegate line entity) are modelled from the specification, as noted on
each such definition.
-/

open scoped Real

noncomputable section

/-- Tolerance constants from rs.h. -/
def RS_MAXDOUBLE : ℝ := 1.0e10

/-- Absolute tolerance from rs.h. -/
def RS_TOLERANCE : ℝ := 1.0e-10

/-- Fine tolerance from rs.h. -/
def RS_TOLERANCE15 : ℝ := 1.5e-15

/-- Squared tolerance from rs.h. -/
def RS_TOLERANCE2 : ℝ := 1.0e-20

/-- Angular tolerance from rs.h. -/
def RS_TOLERANCE_ANGLE : ℝ := 1.0e-8

open Classical

/-- Decide a proposition into a Bool (classical); models a C++ bool-valued
condition over doubles. -/
def pbool (p : Prop) : Bool := if p then true else false

theorem pbool_pos {p : Prop} (h : p) : pbool p = true := by
  simp [pbool, h]

theorem pbool_neg {p : Prop} (h : ¬ p) : pbool p = false := by
  simp [pbool, h]

/-- Truncation toward zero, the semantics of a C cast from double to int. -/
def rtrunc (x : ℝ) : ℤ := if 0 ≤ x then ⌊x⌋ else ⌈x⌉

theorem rtrunc_of_nonneg {x : ℝ} (h : 0 ≤ x) : rtrunc x = ⌊x⌋ := by
  simp [rtrunc, h]

/-- The C library fmod: remainder of x/y truncated toward zero. -/
def cfmod (x y : ℝ) : ℝ := x - y * rtrunc (x / y)

/-- Modelled from the spec: RS_Math::correctAngle, the canonical-range
correction of the external angle-domain helper; result lies in [0, 2*pi). -/
def correctAngle (x : ℝ) : ℝ := x - 2 * π * ⌊x / (2 * π)⌋

theorem correctAngle_nonneg (x : ℝ) : 0 ≤ correctAngle x := by
  have h2 : (0:ℝ) < 2 * π := by positivity
  have key : 2 * π * (x / (2 * π)) = x := by field_simp
  have h1 : (⌊x / (2 * π)⌋ : ℝ) ≤ x / (2 * π) := Int.floor_le _
  have := mul_le_mul_of_nonneg_left h1 h2.le
  rw [key] at this
  simp only [correctAngle]
  linarith

theorem correctAngle_lt (x : ℝ) : correctAngle x < 2 * π := by
  have h2 : (0:ℝ) < 2 * π := by positivity
  have key : 2 * π * (x / (2 * π)) = x := by field_simp
  have h1 : x / (2 * π) < ⌊x / (2 * π)⌋ + 1 := Int.lt_floor_add_one _
  have := mul_lt_mul_of_pos_left h1 h2
  rw [key] at this
  simp only [correctAngle]
  nlinarith

/-- correctAngle is invariant under shifts by whole turns. -/
theorem correctAngle_add_int (x : ℝ) (k : ℤ) :
    correctAngle (x + 2 * π * k) = correctAngle x := by
  have h2 : (0:ℝ) < 2 * π := by positivity
  have hdiv : (x + 2 * π * k) / (2 * π) = x / (2 * π) + k := by
    field_simp
    ring
  simp only [correctAngle, hdiv, Int.floor_add_int]
  push_cast
  ring

theorem correctAngle_spec (x : ℝ) : ∃ k : ℤ, correctAngle x = x + 2 * π * k := by
  refine ⟨-⌊x / (2 * π)⌋, ?_⟩
  simp only [correctAngle]
  push_cast
  ring

theorem cos_correctAngle (x : ℝ) : Real.cos (correctAngle x) = Real.cos x := by
  have h := Real.cos_sub_int_mul_two_pi x ⌊x / (2 * π)⌋
  have e : x - (⌊x / (2 * π)⌋ : ℝ) * (2 * π) = correctAngle x := by
    simp only [correctAngle]
    ring
  rw [e] at h
  exact h

theorem sin_correctAngle (x : ℝ) : Real.sin (correctAngle x) = Real.sin x := by
  have h := Real.sin_add_int_mul_two_pi (correctAngle x) ⌊x / (2 * π)⌋
  have e : correctAngle x + (⌊x / (2 * π)⌋ : ℝ) * (2 * π) = x := by
    simp only [correctAngle]
    ring
  rw [e] at h
  exact h.symm

theorem correctAngle_eq_self {x : ℝ} (h0 : 0 ≤ x) (h1 : x < 2 * π) :
    correctAngle x = x := by
  have h2 : (0:ℝ) < 2 * π := by positivity
  have : ⌊x / (2 * π)⌋ = 0 := by
    apply Int.floor_eq_zero_iff.mpr
    constructor
    · positivity
    · rw [div_lt_one h2]; exact h1
  simp [correctAngle, this]

/-- The C atan2, with the convention of Complex.arg: result in (-pi, pi]. -/
def atan2 (y x : ℝ) : ℝ := Complex.arg (x + y * Complex.I)

/-- The 2D point/vector collaborator (RS_Vector), modelled from the spec:
coordinates plus an invalid-marker flag. -/
structure RS_Vector where
  valid : Bool
  x : ℝ
  y : ℝ

namespace RS_Vector

/-- The invalid-vector sentinel, the default-constructed RS_Vector. -/
def invalid : RS_Vector := ⟨false, 0, 0⟩

/-- RS_Vector built from an angle: the unit vector (cos a, sin a). -/
def fromAngle (a : ℝ) : RS_Vector := ⟨true, Real.cos a, Real.sin a⟩

/-- In-place translation (RS_Vector::move); keeps the validity flag. -/
def move (v w : RS_Vector) : RS_Vector := ⟨v.valid, v.x + w.x, v.y + w.y⟩

/-- Vector difference. -/
def sub (v w : RS_Vector) : RS_Vector := ⟨v.valid && w.valid, v.x - w.x, v.y - w.y⟩

/-- Vector negation. -/
def neg (v : RS_Vector) : RS_Vector := ⟨v.valid, -v.x, -v.y⟩

/-- Componentwise scaling (RS_Vector::scale by a factor vector). -/
def scale (v w : RS_Vector) : RS_Vector := ⟨v.valid, v.x * w.x, v.y * w.y⟩

/-- Scaling by a scalar. -/
def smul (v : RS_Vector) (c : ℝ) : RS_Vector := ⟨v.valid, v.x * c, v.y * c⟩

/-- Rotation by an angle. -/
def rotateAngle (v : RS_Vector) (a : ℝ) : RS_Vector :=
  ⟨v.valid, v.x * Real.cos a - v.y * Real.sin a, v.x * Real.sin a + v.y * Real.cos a⟩

/-- Rotation by a unit direction vector (RS_Vector::rotate(RS_Vector)). -/
def rotateVec (v w : RS_Vector) : RS_Vector :=
  ⟨v.valid, v.x * w.x - v.y * w.y, v.x * w.y + v.y * w.x⟩

/-- Squared magnitude. -/
def squared (v : RS_Vector) : ℝ := v.x ^ 2 + v.y ^ 2

/-- Squared distance to another vector. -/
def squaredTo (v w : RS_Vector) : ℝ := (v.sub w).squared

/-- Magnitude. -/
def magnitude (v : RS_Vector) : ℝ := Real.sqrt (v.x ^ 2 + v.y ^ 2)

/-- Distance to another vector. -/
def distanceTo (v w : RS_Vector) : ℝ := (v.sub w).magnitude

/-- Dot product. -/
def dotP (v w : RS_Vector) : ℝ := v.x * w.x + v.y * w.y

/-- The planar angle of a vector in [0, 2*pi), the RS_Vector::angle accessor. -/
def angle (v : RS_Vector) : ℝ := correctAngle (atan2 v.y v.x)

end RS_Vector

theorem magnitude_nonneg (v : RS_Vector) : 0 ≤ v.magnitude := Real.sqrt_nonneg _

/-- The magnitude of a vector equals the complex absolute value of its
coordinates. -/
theorem magnitude_eq_cabs (v : RS_Vector) :
    v.magnitude = Complex.abs (v.x + v.y * Complex.I) := by
  rw [Complex.abs_apply, Complex.normSq_add_mul_I, RS_Vector.magnitude]

/-- Polar decomposition of the x coordinate through the angle accessor. -/
theorem magnitude_mul_cos_angle (v : RS_Vector) :
    v.magnitude * Real.cos v.angle = v.x := by
  rw [RS_Vector.angle, cos_correctAngle, magnitude_eq_cabs, atan2]
  simpa using Complex.abs_mul_cos_arg (v.x + v.y * Complex.I)

/-- Polar decomposition of the y coordinate through the angle accessor. -/
theorem magnitude_mul_sin_angle (v : RS_Vector) :
    v.magnitude * Real.sin v.angle = v.y := by
  rw [RS_Vector.angle, sin_correctAngle, magnitude_eq_cabs, atan2]
  simpa using Complex.abs_mul_sin_arg (v.x + v.y * Complex.I)

/-- Any real angle has a representative in (-pi, pi] modulo whole turns. -/
theorem exists_Ioc_rep (θ : ℝ) : ∃ n : ℤ, θ - 2 * π * n ∈ Set.Ioc (-π) π := by
  have h2 : (0:ℝ) < 2 * π := by positivity
  have key : 2 * π * ((θ - π) / (2 * π)) = θ - π := by field_simp
  refine ⟨⌈(θ - π) / (2 * π)⌉, ?_, ?_⟩
  · have h1 : (⌈(θ - π) / (2 * π)⌉ : ℝ) < (θ - π) / (2 * π) + 1 := Int.ceil_lt_add_one _
    have := mul_lt_mul_of_pos_left h1 h2
    rw [mul_add, key, mul_one] at this
    linarith
  · have h1 : (θ - π) / (2 * π) ≤ (⌈(θ - π) / (2 * π)⌉ : ℝ) := Int.le_ceil _
    have := mul_le_mul_of_nonneg_left h1 h2.le
    rw [key] at this
    linarith

/-- The angle accessor on a vector written in polar form with a positive
radius recovers the angle up to canonical-range correction. -/
theorem angle_of_polar {v : RS_Vector} {c θ : ℝ} (hc : 0 < c)
    (hx : v.x = c * Real.cos θ) (hy : v.y = c * Real.sin θ) :
    v.angle = correctAngle θ := by
  obtain ⟨n, hn⟩ := exists_Ioc_rep θ
  have hcos : Real.cos (θ - 2 * π * n) = Real.cos θ := by
    have h := Real.cos_sub_int_mul_two_pi θ n
    have e : θ - (n : ℝ) * (2 * π) = θ - 2 * π * n := by ring
    rw [e] at h
    exact h
  have hsin : Real.sin (θ - 2 * π * n) = Real.sin θ := by
    have h := Real.sin_add_int_mul_two_pi (θ - 2 * π * n) n
    have e : θ - 2 * π * n + (n : ℝ) * (2 * π) = θ := by ring
    rw [e] at h
    exact h.symm
  have harg : Complex.arg (v.x + v.y * Complex.I) = θ - 2 * π * n := by
    have e : (v.x : ℂ) + v.y * Complex.I =
        (c : ℂ) * (Complex.cos ((θ - 2 * π * n : ℝ) : ℂ) +
          Complex.sin ((θ - 2 * π * n : ℝ) : ℂ) * Complex.I) := by
      rw [← Complex.ofReal_cos, ← Complex.ofReal_sin, hcos, hsin, hx, hy]
      push_cast
      ring
    rw [e]
    exact Complex.arg_mul_cos_add_sin_mul_I hc hn
  have hca : correctAngle (θ - 2 * π * n) = correctAngle θ := by
    have h := correctAngle_add_int (θ - 2 * π * n) n
    have e : θ - 2 * π * n + 2 * π * (n : ℝ) = θ := by ring
    rw [e] at h
    exact h.symm
  rw [RS_Vector.angle, atan2, harg, hca]

/-- Composition of two rotations is rotation by the sum of the angles. -/
theorem rotateAngle_rotateAngle (v : RS_Vector) (a b : ℝ) :
    (v.rotateAngle a).rotateAngle b = v.rotateAngle (a + b) := by
  simp only [RS_Vector.rotateAngle, Real.cos_add, Real.sin_add, RS_Vector.mk.injEq,
    true_and]
  constructor <;> ring

/-- Rotation by the zero angle is the identity. -/
theorem rotateAngle_zero (v : RS_Vector) : v.rotateAngle 0 = v := by
  simp [RS_Vector.rotateAngle]

/-- The persistent ellipse data (RS_EllipseData): canonical parameters plus
the derived presentation fields recomputed by calculateBorders. -/
structure RS_EllipseData where
  center : RS_Vector
  majorP : RS_Vector
  ratio : ℝ
  angle1 : ℝ
  angle2 : ℝ
  reversed : Bool
  isArc : Bool
  angleDegrees : ℝ
  startAngleDegrees : ℝ
  otherAngleDegrees : ℝ
  angularLength : ℝ

/-- The ellipse entity: data plus the cached bounding-box corners and the
cached arc length maintained by calculateBorders. -/
structure RS_Ellipse where
  data : RS_EllipseData
  minV : RS_Vector
  maxV : RS_Vector
  cachedLength : ℝ

namespace RS_Ellipse

/-- Accessor for the orientation flag. -/
def isReversed (st : RS_Ellipse) : Bool := st.data.reversed

/-- Rotation angle of the ellipse: the angle of the major-axis vector. -/
def getAngle (st : RS_Ellipse) : ℝ := st.data.majorP.angle

/-- Accessor for the start parametric angle. -/
def getAngle1 (st : RS_Ellipse) : ℝ := st.data.angle1

/-- Accessor for the end parametric angle. -/
def getAngle2 (st : RS_Ellipse) : ℝ := st.data.angle2

/-- Accessor for the center. -/
def getCenter (st : RS_Ellipse) : RS_Vector := st.data.center

/-- Accessor for the major-axis vector. -/
def getMajorP (st : RS_Ellipse) : RS_Vector := st.data.majorP

/-- Accessor for the minor/major ratio. -/
def getRatio (st : RS_Ellipse) : ℝ := st.data.ratio

/-- Major radius: magnitude of the major-axis vector. -/
def getMajorRadius (st : RS_Ellipse) : ℝ := st.data.majorP.magnitude

/-- Minor radius: major radius times the ratio. -/
def getMinorRadius (st : RS_Ellipse) : ℝ := st.data.majorP.magnitude * st.data.ratio

/-- The endpoint of the major axis. -/
def getMajorPoint (st : RS_Ellipse) : RS_Vector := st.data.center.move st.data.majorP

/-- The endpoint of the minor axis. -/
def getMinorPoint (st : RS_Ellipse) : RS_Vector :=
  st.data.center.move ((RS_Vector.mk true (-st.data.majorP.y) st.data.majorP.x).smul st.data.ratio)

/-- Whether the entity is an elliptic arc (the cached isArc flag). -/
def isEllipticArc (st : RS_Ellipse) : Bool := st.data.isArc

/-- Ellipse point by parametric angle: scale the unit direction by the two
radii, rotate by the ellipse rotation, translate by the center. -/
def getEllipsePoint (st : RS_Ellipse) (a : ℝ) : RS_Vector :=
  (((RS_Vector.fromAngle a).scale
      ⟨true, st.getMajorRadius, st.getMajorRadius * st.getRatio⟩).rotateAngle
      st.getAngle).move st.getCenter

/-- Start point of the arc; invalid for a whole ellipse. -/
def getStartpoint (st : RS_Ellipse) : RS_Vector :=
  if st.isEllipticArc then st.getEllipsePoint st.data.angle1 else RS_Vector.invalid

/-- End point of the arc; invalid for a whole ellipse. -/
def getEndpoint (st : RS_Ellipse) : RS_Vector :=
  if st.isEllipticArc then st.getEllipsePoint st.data.angle2 else RS_Vector.invalid

/-- Inverse of the parametric point map: undo the translation and rotation,
rescale the x coordinate by the ratio, take the planar angle. -/
def getEllipseAngle (st : RS_Ellipse) (pos : RS_Vector) : ℝ :=
  let m := (pos.sub st.data.center).rotateAngle (-(st.data.majorP.angle))
  (RS_Vector.mk m.valid (m.x * st.data.ratio) m.y).angle

end RS_Ellipse

/-- C3: for every ellipse with major radius and ratio above tolerance and for
every parametric angle, getEllipseAngle inverts getEllipsePoint modulo whole
turns (the result is the canonical representative of the angle). -/
theorem getEllipseAngle_getEllipsePoint (st : RS_Ellipse)
    (h1 : RS_TOLERANCE < st.getMajorRadius) (h2 : RS_TOLERANCE < st.getRatio)
    (θ : ℝ) :
    ∃ k : ℤ, st.getEllipseAngle (st.getEllipsePoint θ) = θ + 2 * π * k := by
  have hra : 0 < st.getMajorRadius := lt_trans (by norm_num [RS_TOLERANCE]) h1
  have hr : 0 < st.getRatio := lt_trans (by norm_num [RS_TOLERANCE]) h2
  have pyth : Real.cos st.data.majorP.angle ^ 2 + Real.sin st.data.majorP.angle ^ 2 = 1 :=
    Real.cos_sq_add_sin_sq _
  have key : st.getEllipseAngle (st.getEllipsePoint θ) = correctAngle θ := by
    unfold RS_Ellipse.getEllipseAngle RS_Ellipse.getEllipsePoint
    simp only [RS_Vector.move, RS_Vector.sub, RS_Vector.scale, RS_Vector.fromAngle,
      RS_Vector.rotateAngle, RS_Ellipse.getAngle, RS_Ellipse.getCenter,
      RS_Ellipse.getRatio, RS_Ellipse.getMajorRadius,
      Real.cos_neg, Real.sin_neg]
    refine angle_of_polar (c := st.data.majorP.magnitude * st.data.ratio) (θ := θ)
      (mul_pos hra hr) ?_ ?_
    · dsimp only
      linear_combination (st.data.ratio * st.data.majorP.magnitude * Real.cos θ) * pyth
    · dsimp only
      linear_combination (st.data.majorP.magnitude * st.data.ratio * Real.sin θ) * pyth
  obtain ⟨k, hk⟩ := correctAngle_spec θ
  exact ⟨k, by rw [key, hk]⟩

/-- Witness for C3 at a concrete ellipse and angle. -/
theorem getEllipseAngle_getEllipsePoint_witness :
    ∃ k : ℤ,
      RS_Ellipse.getEllipseAngle
        ⟨⟨⟨true, 0, 0⟩, ⟨true, 10, 0⟩, 1/2, 0, 0, false, false, 0, 0, 0, 0⟩,
          RS_Vector.invalid, RS_Vector.invalid, 0⟩
        (RS_Ellipse.getEllipsePoint
          ⟨⟨⟨true, 0, 0⟩, ⟨true, 10, 0⟩, 1/2, 0, 0, false, false, 0, 0, 0, 0⟩,
            RS_Vector.invalid, RS_Vector.invalid, 0⟩ 0) = 0 + 2 * π * k := by
  apply getEllipseAngle_getEllipsePoint
  · simp only [RS_Ellipse.getMajorRadius, RS_Vector.magnitude]
    rw [show ((10:ℝ)^2 + 0^2) = 10^2 by norm_num, Real.sqrt_sq (by norm_num : (0:ℝ) ≤ 10)]
    norm_num [RS_TOLERANCE]
  · norm_num [RS_Ellipse.getRatio, RS_TOLERANCE]

/-- Modelled from the spec: the complete elliptic integral of the second kind
(boost::math::ellint_2), a trusted numeric primitive. -/
def ellint_2C (k : ℝ) : ℝ := ∫ t in (0:ℝ)..(π/2), Real.sqrt (1 - k^2 * Real.sin t ^ 2)

/-- Modelled from the spec: the incomplete elliptic integral of the second
kind (RS_Math::ellipticIntegral_2), a trusted numeric primitive. -/
def ellint_2I (k φ : ℝ) : ℝ := ∫ t in (0:ℝ)..φ, Real.sqrt (1 - k^2 * Real.sin t ^ 2)

namespace RS_Ellipse

/-- Arc length between two parametric angles (RS_Ellipse::getEllipseLength,
two-argument form); requires a normalized ellipse (ratio at most 1, not
reversed).  Whole periods contribute complete elliptic integrals, the residual
contributes a difference of incomplete integrals of the angles modulo pi. -/
def getEllipseLength2 (st : RS_Ellipse) (x1 x2 : ℝ) : ℝ :=
  let a := st.getMajorRadius
  let k := Real.sqrt (1 - st.getRatio * st.getRatio)
  let y1 := correctAngle x1
  let y2 := correctAngle x2
  let y2 := if y2 < y1 + RS_TOLERANCE_ANGLE then y2 + 2 * π else y2
  let ret : ℝ :=
    if π ≤ y2 then
      (((rtrunc ((y2 + RS_TOLERANCE_ANGLE) / π) - rtrunc ((y1 + RS_TOLERANCE_ANGLE) / π)) * 2 : ℤ) : ℝ)
        * ellint_2C k
    else 0
  let z1 := cfmod y1 π
  let z2 := cfmod y2 π
  let ret := if RS_TOLERANCE_ANGLE < |z2 - z1| then ret + (ellint_2I k z2 - ellint_2I k z1) else ret
  a * ret

/-- Arc length from the start angle (single-argument overload). -/
def getEllipseLength1 (st : RS_Ellipse) (x2 : ℝ) : ℝ :=
  st.getEllipseLength2 st.getAngle1 x2

end RS_Ellipse

/-- C2: for a whole ellipse the two-angle arc length at coinciding angles is
the full perimeter 4 a E(sqrt(1 - r^2)), independently of the start angle. -/
theorem getEllipseLength_whole (st : RS_Ellipse)
    (hwhole : st.data.angle1 = 0 ∧ st.data.angle2 = 0)
    (hr0 : 0 < st.getRatio) (hr1 : st.getRatio ≤ 1) (t : ℝ) :
    st.getEllipseLength2 t t =
      4 * st.getMajorRadius * ellint_2C (Real.sqrt (1 - st.getRatio ^ 2)) := by
  have hπ : (0:ℝ) < π := Real.pi_pos
  have hc0 : 0 ≤ correctAngle t := correctAngle_nonneg t
  set c := correctAngle t with hc
  have htola : (0:ℝ) < RS_TOLERANCE_ANGLE := by norm_num [RS_TOLERANCE_ANGLE]
  delta RS_Ellipse.getEllipseLength2
  simp only []
  simp only [← hc]
  rw [if_pos (by linarith : c < c + RS_TOLERANCE_ANGLE)]
  rw [if_pos (by linarith : π ≤ c + 2 * π)]
  have hdiv2 : (c + 2 * π + RS_TOLERANCE_ANGLE) / π = (c + RS_TOLERANCE_ANGLE) / π + 2 := by
    field_simp
    ring
  have hu : 0 ≤ (c + RS_TOLERANCE_ANGLE) / π := by positivity
  have htr2 : rtrunc ((c + 2 * π + RS_TOLERANCE_ANGLE) / π) =
      rtrunc ((c + RS_TOLERANCE_ANGLE) / π) + 2 := by
    rw [hdiv2, rtrunc_of_nonneg hu, rtrunc_of_nonneg (by linarith)]
    rw [show ((c + RS_TOLERANCE_ANGLE) / π + 2 : ℝ) = (c + RS_TOLERANCE_ANGLE) / π + (2:ℤ) by push_cast; ring]
    rw [Int.floor_add_int]
  have hmod : cfmod (c + 2 * π) π = cfmod c π := by
    have hdiv : (c + 2 * π) / π = c / π + 2 := by
      field_simp
    have hc2 : 0 ≤ c / π := by positivity
    unfold cfmod
    rw [hdiv, rtrunc_of_nonneg hc2, rtrunc_of_nonneg (by linarith)]
    rw [show (c / π + 2 : ℝ) = c / π + (2:ℤ) by push_cast; ring]
    rw [Int.floor_add_int]
    push_cast
    ring
  rw [htr2, hmod]
  rw [if_neg (by simp [htola.le] : ¬ RS_TOLERANCE_ANGLE < |cfmod c π - cfmod c π|)]
  have : ((rtrunc ((c + RS_TOLERANCE_ANGLE) / π) + 2 - rtrunc ((c + RS_TOLERANCE_ANGLE) / π)) * 2 : ℤ) = 4 := by
    ring
  rw [this]
  have hsq : st.getRatio * st.getRatio = st.getRatio ^ 2 := by ring
  rw [hsq]
  push_cast
  ring

/-- Witness for C2 at a concrete whole ellipse and start angle. -/
theorem getEllipseLength_whole_witness :
    RS_Ellipse.getEllipseLength2
      ⟨⟨⟨true, 0, 0⟩, ⟨true, 10, 0⟩, 1/2, 0, 0, false, false, 0, 0, 0, 0⟩,
        RS_Vector.invalid, RS_Vector.invalid, 0⟩ 0 0 =
      4 * (RS_Ellipse.getMajorRadius
        ⟨⟨⟨true, 0, 0⟩, ⟨true, 10, 0⟩, 1/2, 0, 0, false, false, 0, 0, 0, 0⟩,
          RS_Vector.invalid, RS_Vector.invalid, 0⟩) *
        ellint_2C (Real.sqrt (1 - (RS_Ellipse.getRatio
          ⟨⟨⟨true, 0, 0⟩, ⟨true, 10, 0⟩, 1/2, 0, 0, false, false, 0, 0, 0, 0⟩,
            RS_Vector.invalid, RS_Vector.invalid, 0⟩) ^ 2)) := by
  apply getEllipseLength_whole
  · exact ⟨rfl, rfl⟩
  · norm_num [RS_Ellipse.getRatio]
  · norm_num [RS_Ellipse.getRatio]

/-- Core of the is-angle-between test in the unreversed orientation: bounds
that coincide modulo a whole turn denote the full circle, otherwise the
corrected offset of the angle from the first bound must not exceed the
corrected span. -/
def between0 (a b1 b2 : ℝ) : Prop :=
  correctAngle (b2 - b1) = 0 ∨ correctAngle (a - b1) ≤ correctAngle (b2 - b1)

namespace RS_Math

/-- Modelled from the spec: radians-to-degrees conversion. -/
def rad2deg (a : ℝ) : ℝ := a * 180 / π

/-- Modelled from the spec: signed angular difference honoring the
orientation flag (RS_Math::getAngleDifference). -/
def getAngleDifference (a1 a2 : ℝ) (rev : Bool) : ℝ :=
  if rev then correctAngle (a1 - a2) else correctAngle (a2 - a1)

/-- Modelled from the spec: period-count counting between two angles
(RS_Math::getPeriodsCount). -/
def getPeriodsCount (a1 a2 : ℝ) (rev : Bool) : ℤ :=
  if correctAngle (if rev then a1 - a2 else a2 - a1) = 0 ∧ ¬ a1 = a2 then 1 else 0

/-- Modelled from the spec: the angle-domain helper deciding whether an angle
lies between two bounds honoring the orientation flag
(RS_Math::isAngleBetween); coinciding bounds denote the whole circle. -/
def isAngleBetween (a a1 a2 : ℝ) (rev : Bool) : Prop :=
  between0 a (cond rev a2 a1) (cond rev a1 a2)

end RS_Math

/-- Modelled from the spec: the generic axis-aligned bounding-rectangle
collaborator (LC_Rect); an optional pair of ordered corners, none denoting
the empty box. -/
def LC_Rect := Option (RS_Vector × RS_Vector)

namespace LC_Rect

/-- The empty rectangle (default-constructed LC_Rect). -/
def empty : LC_Rect := none

/-- Rectangle from two corner points, ordering the corners componentwise. -/
def fromPoints (p q : RS_Vector) : LC_Rect :=
  some (⟨true, min p.x q.x, min p.y q.y⟩, ⟨true, max p.x q.x, max p.y q.y⟩)

/-- Merge a point into a rectangle, growing it as needed. -/
def merge (r : LC_Rect) (p : RS_Vector) : LC_Rect :=
  match r with
  | none => some (⟨true, p.x, p.y⟩, ⟨true, p.x, p.y⟩)
  | some (lo, hi) =>
      some (⟨true, min lo.x p.x, min lo.y p.y⟩, ⟨true, max hi.x p.x, max hi.y p.y⟩)

/-- Lower-left corner; the invalid vector for the empty rectangle. -/
def minP : LC_Rect → RS_Vector
  | none => RS_Vector.invalid
  | some (lo, _) => lo

/-- Upper-right corner; the invalid vector for the empty rectangle. -/
def maxP : LC_Rect → RS_Vector
  | none => RS_Vector.invalid
  | some (_, hi) => hi

end LC_Rect

namespace RS_Ellipse

/-- The field updates of switchMajorMinor (without the guard and without the
border recomputation): rotate the major axis a quarter turn scaled by the
ratio, invert the ratio, and remap the start and end points of an arc. -/
def switchMajorMinorCore (st : RS_Ellipse) : RS_Ellipse :=
  let vpStart := st.getStartpoint
  let vpEnd := st.getEndpoint
  let vp := st.getMajorP
  let st1 : RS_Ellipse :=
    { st with data := { st.data with
        majorP := ⟨true, -st.data.ratio * vp.y, st.data.ratio * vp.x⟩,
        ratio := 1 / st.data.ratio } }
  if st.isEllipticArc then
    { st1 with data := { st1.data with
        angle1 := st1.getEllipseAngle vpStart,
        angle2 := st1.getEllipseAngle vpEnd } }
  else st1

/-- switchMajorMinor as seen by the border-helper subclass whose
calculateBorders is a no-op: the guard plus the field updates only. -/
def switchMajorMinorRaw (st : RS_Ellipse) : RS_Ellipse :=
  if |st.data.ratio| < RS_TOLERANCE then st else st.switchMajorMinorCore

/-- RS_Ellipse::updateLength: compute the whole-entity arc length on a
normalized non-recursive copy (ratio at most one, unreversed). -/
def updateLength (st : RS_Ellipse) : ℝ :=
  let e1 := if 1 < st.getRatio then st.switchMajorMinorRaw else st
  let e2 := if e1.isReversed then
      { e1 with data := { e1.data with
          angle1 := e1.data.angle2, angle2 := e1.data.angle1, reversed := false } }
    else e1
  e2.getEllipseLength2 e2.data.angle1 e2.data.angle2

/-- The angle-normalization prologue of calculateBorders: near-zero angle
pairs are snapped to the exact whole-ellipse sentinel and the isArc flag is
recomputed. -/
def bordersData (st : RS_Ellipse) : RS_Ellipse :=
  let a1 := if |st.data.angle1| < RS_TOLERANCE_ANGLE ∧ |st.data.angle2| < RS_TOLERANCE_ANGLE
    then (0:ℝ) else st.data.angle1
  let a2 := if |st.data.angle1| < RS_TOLERANCE_ANGLE ∧ |st.data.angle2| < RS_TOLERANCE_ANGLE
    then (0:ℝ) else st.data.angle2
  { st with data := { st.data with
      angle1 := a1, angle2 := a2, isArc := pbool (¬ a1 = 0 ∨ ¬ a2 = 0) } }

/-- RS_Ellipse::mergeBoundingBox: merge the ellipse points of a direction and
of its opposite into the box, each only when its parametric angle lies on the
kept arc. -/
def mergeBoundingBox (st : RS_Ellipse) (box : LC_Rect) (direction : RS_Vector) : LC_Rect :=
  let a := direction.angle
  let box1 := if RS_Math.isAngleBetween a st.getAngle1 st.getAngle2 st.isReversed
    then box.merge (st.getEllipsePoint a) else box
  if RS_Math.isAngleBetween (a + π) st.getAngle1 st.getAngle2 st.isReversed
    then box1.merge (st.getEllipsePoint (a + π)) else box1

/-- The bounding rectangle computed by calculateBorders: seed with the start
and end points for an arc or with the empty box for a whole ellipse, then
merge the x-extremal and y-extremal directions. -/
def boundingRect (st : RS_Ellipse) : LC_Rect :=
  let box0 := if st.isEllipticArc then LC_Rect.fromPoints st.getStartpoint st.getEndpoint
    else LC_Rect.empty
  let vpx : RS_Vector := ⟨true, st.getMajorP.x, -st.getRatio * st.getMajorP.y⟩
  let box1 := st.mergeBoundingBox box0 vpx
  let vpy : RS_Vector := ⟨true, st.getMajorP.y, st.getRatio * st.getMajorP.x⟩
  st.mergeBoundingBox box1 vpy

/-- The angular-length presentation field computed by calculateBorders, with
the whole-turn correction through the period count. -/
def borderAngularLength (d : RS_EllipseData) : ℝ :=
  let al := RS_Math.rad2deg (RS_Math.getAngleDifference d.angle1 d.angle2 d.reversed)
  if |al| < RS_TOLERANCE_ANGLE then
    (if ¬ RS_Math.getPeriodsCount d.angle1 d.angle2 d.reversed = 0 then 360 else al)
  else al

/-- RS_Ellipse::calculateBorders: normalize the angles, recompute the isArc
flag, recompute the bounding box from the seed and the extremal directions,
refresh the degree-mirrored presentation fields and refresh the cached
length. -/
def calculateBorders (st : RS_Ellipse) : RS_Ellipse :=
  let st1 := st.bordersData
  let box := st1.boundingRect
  { data := { st1.data with
      angleDegrees := RS_Math.rad2deg st1.getAngle,
      startAngleDegrees := RS_Math.rad2deg
        (if st1.data.reversed then st1.data.angle2 else st1.data.angle1),
      otherAngleDegrees := RS_Math.rad2deg
        (if st1.data.reversed then st1.data.angle1 else st1.data.angle2),
      angularLength := borderAngularLength st1.data },
    minV := box.minP,
    maxV := box.maxP,
    cachedLength := st1.updateLength }

/-- RS_Ellipse::switchMajorMinor: fail on a near-zero ratio, otherwise apply
the field updates and recompute the borders. -/
def switchMajorMinor (st : RS_Ellipse) : Option RS_Ellipse :=
  if |st.data.ratio| < RS_TOLERANCE then none
  else some st.switchMajorMinorCore.calculateBorders

/-- The RS_Ellipse constructor from data: store the data and compute the
borders. -/
def mkEllipse (d : RS_EllipseData) : RS_Ellipse :=
  calculateBorders ⟨d, RS_Vector.invalid, RS_Vector.invalid, 0⟩

/-- RS_Ellipse::getFoci: on a copy normalized to ratio at most one, the foci
lie along the major axis at distance sqrt(1 - ratio^2) times the major-axis
vector from the center. -/
def getFoci (st : RS_Ellipse) : List RS_Vector :=
  let e := if 1 < st.getRatio then st.switchMajorMinor.getD st else st
  let vp := e.getMajorP.smul (Real.sqrt (1 - e.getRatio * e.getRatio))
  [st.getCenter.move vp, st.getCenter.move vp.neg]

/-- The angle-swap and orientation-toggle field updates of revertDirection. -/
def revSwap (st : RS_Ellipse) : RS_Ellipse :=
  { st with data := { st.data with
      angle1 := st.data.angle2, angle2 := st.data.angle1,
      reversed := !st.data.reversed } }

/-- RS_Ellipse::revertDirection: swap the boundary angles and toggle the
orientation flag of an arc, then recompute the borders; a whole ellipse is
left unchanged. -/
def revertDirection (st : RS_Ellipse) : RS_Ellipse :=
  if st.data.isArc then st.revSwap.calculateBorders
  else st

end RS_Ellipse

namespace RS_Ellipse

/-- RS_Ellipse::createFromQuadratic on a coefficient triple for the form
a x^2 + c xy + b y^2 = 1: closed-form eigen-decomposition of the symmetric
matrix; fails unless both eigenvalues are positive; keeps the center; resets
the angles to the whole-ellipse sentinel. -/
def createFromQuadratic (st : RS_Ellipse) (dn : List ℝ) : Option RS_Ellipse :=
  if ¬ dn.length = 3 then none
  else
    let a := dn.getD 0 0
    let c := dn.getD 1 0
    let b := dn.getD 2 0
    let d := a - b
    let s := Real.sqrt (d ^ 2 + c ^ 2)
    if a + b ≤ s then none
    else
      let mp1 := (RS_Vector.fromAngle (atan2 (d + s) (-c))).smul (1 / Real.sqrt (0.5 * (a + b - s)))
      let mp2 := (RS_Vector.fromAngle (atan2 (-c) (s - d))).smul (1 / Real.sqrt (0.5 * (a + b - s)))
      let st1 := if b ≤ a then { st with data := { st.data with majorP := mp1 } }
        else { st with data := { st.data with majorP := mp2 } }
      some { st1 with data := { st1.data with
          ratio := Real.sqrt ((a + b - s) / (a + b + s)),
          angle1 := 0, angle2 := 0 } }

end RS_Ellipse

/-- Modelled from the spec: RS_Math::linearSolver, the external generic dense
linear-system solver over small systems; it fails on singular systems and
otherwise returns the unique solution. -/
def RS_Math.linearSolver {n : ℕ} (A : Matrix (Fin n) (Fin n) ℝ) (b : Fin n → ℝ) :
    Option (Fin n → ℝ) :=
  if h : ∃! v : Fin n → ℝ, A.mulVec v = b then some h.choose else none

theorem linearSolver_eq_some {n : ℕ} {A : Matrix (Fin n) (Fin n) ℝ} {b v : Fin n → ℝ}
    (hv : A.mulVec v = b) (huniq : ∀ w, A.mulVec w = b → w = v) :
    RS_Math.linearSolver A b = some v := by
  have h : ∃! w : Fin n → ℝ, A.mulVec w = b := ⟨v, hv, huniq⟩
  unfold RS_Math.linearSolver
  rw [dif_pos h]
  exact congrArg some (huniq h.choose h.choose_spec.1)

namespace RS_Ellipse

/-- RS_Ellipse::createFrom4P: fit an axis-aligned ellipse through 4 points by
solving the linear system c0 x^2 + c1 x + c2 y^2 + c3 y = 1, rejecting
degenerate coefficient combinations; note that the stored ratio is written
directly from the solved coefficients. -/
def createFrom4P (st : RS_Ellipse) (sol : List RS_Vector) : Option RS_Ellipse :=
  if ¬ sol.length = 4 then none
  else
    let P : Fin 4 → RS_Vector := fun i => sol.getD i.val RS_Vector.invalid
    let A : Matrix (Fin 4) (Fin 4) ℝ := Matrix.of fun i j =>
      if j = 0 then (P i).x * (P i).x
      else if j = 1 then (P i).x
      else if j = 2 then (P i).y * (P i).y
      else (P i).y
    match RS_Math.linearSolver A (fun _ => 1) with
    | none => none
    | some dn =>
      let d := 1 + 0.25 * (dn 1 * dn 1 / dn 0 + dn 3 * dn 3 / dn 2)
      if |dn 0| < RS_TOLERANCE15 ∨ |dn 2| < RS_TOLERANCE15 ∨
          d / dn 0 < RS_TOLERANCE15 ∨ d / dn 2 < RS_TOLERANCE15 then none
      else some { st with data := { st.data with
          center := ⟨true, -0.5 * dn 1 / dn 0, -0.5 * dn 3 / dn 2⟩,
          majorP := ⟨true, Real.sqrt (d / dn 0), 0⟩,
          ratio := Real.sqrt (dn 0 / dn 2),
          angle1 := 0, angle2 := 0 } }

end RS_Ellipse

/-- A concrete whole ellipse used as a base state in concrete scenarios. -/
def E0 : RS_Ellipse :=
  ⟨⟨⟨true, 0, 0⟩, ⟨true, 10, 0⟩, 1/2, 0, 0, false, false, 0, 0, 0, 0⟩,
    RS_Vector.invalid, RS_Vector.invalid, 0⟩

/-- Four concrete points on the axis-aligned ellipse x^2 + y^2/4 = 1. -/
def pts4 : List RS_Vector := [⟨true, 1, 0⟩, ⟨true, -1, 0⟩, ⟨true, 0, 2⟩, ⟨true, 0, -2⟩]

/-- The unique solution of the 4-point linear system for pts4. -/
def dn4 : Fin 4 → ℝ := fun i => if i = 0 then 1 else if i = 2 then 1/4 else 0

/-- The ellipse produced by createFrom4P on pts4: its stored ratio is 2. -/
def C1cex : RS_Ellipse :=
  ⟨⟨⟨true, 0, 0⟩, ⟨true, 1, 0⟩, 2, 0, 0, false, false, 0, 0, 0, 0⟩,
    RS_Vector.invalid, RS_Vector.invalid, 0⟩

theorem createFrom4P_pts4_eval : E0.createFrom4P pts4 = some C1cex := by
  have hlen : pts4.length = 4 := by simp [pts4]
  have hsolve : RS_Math.linearSolver
      (Matrix.of fun i j =>
        if j = 0 then ((fun i : Fin 4 => pts4.getD i.val RS_Vector.invalid) i).x *
          ((fun i : Fin 4 => pts4.getD i.val RS_Vector.invalid) i).x
        else if j = 1 then ((fun i : Fin 4 => pts4.getD i.val RS_Vector.invalid) i).x
        else if j = 2 then ((fun i : Fin 4 => pts4.getD i.val RS_Vector.invalid) i).y *
          ((fun i : Fin 4 => pts4.getD i.val RS_Vector.invalid) i).y
        else ((fun i : Fin 4 => pts4.getD i.val RS_Vector.invalid) i).y)
      (fun _ => 1) = some dn4 := by
    apply linearSolver_eq_some
    · funext i
      fin_cases i <;>
        simp [Matrix.mulVec, Matrix.dotProduct, Fin.sum_univ_four, pts4, dn4,
          List.getD, show ((3:Fin 4).val) = 3 from rfl] <;> norm_num
    · intro w hw
      have h0 := congrFun hw 0
      have h1 := congrFun hw 1
      have h2 := congrFun hw 2
      have h3 := congrFun hw 3
      simp [Matrix.mulVec, Matrix.dotProduct, Fin.sum_univ_four, pts4,
        List.getD, show ((3:Fin 4).val) = 3 from rfl] at h0 h1 h2 h3
      funext i
      fin_cases i <;> simp [dn4] <;> linarith
  unfold RS_Ellipse.createFrom4P
  rw [if_neg (by simp [hlen])]
  simp only [hsolve]
  have e0 : dn4 0 = 1 := rfl
  have e1 : dn4 1 = 0 := rfl
  have e2 : dn4 2 = 1/4 := rfl
  have e3 : dn4 3 = 0 := rfl
  have hd : (1 + 0.25 * (dn4 1 * dn4 1 / dn4 0 + dn4 3 * dn4 3 / dn4 2) : ℝ) = 1 := by
    rw [e0, e1, e2, e3]; norm_num
  rw [if_neg]
  · simp only [Option.some.injEq]
    rw [hd, e0, e1, e2, e3]
    unfold E0 C1cex
    have hmaj : Real.sqrt ((1:ℝ) / 1) = 1 := by
      norm_num [Real.sqrt_one]
    have hrat : Real.sqrt ((1:ℝ) / (1/4)) = 2 := by
      rw [show ((1:ℝ) / (1/4)) = 2^2 by norm_num, Real.sqrt_sq (by norm_num : (0:ℝ) ≤ 2)]
    rw [hmaj, hrat]
    norm_num
  · rw [hd, e0, e2]
    rw [show |(1:ℝ)| = 1 from abs_of_nonneg (by norm_num),
      show |(1:ℝ)/4| = 1/4 from abs_of_nonneg (by norm_num)]
    norm_num [RS_TOLERANCE15]

/-- Counterexample to C1: createFrom4P succeeds on four valid points on an
axis-aligned ellipse and stores a ratio strictly greater than 1, without any
major/minor swap. -/
theorem createFrom4P_ratio_exceeds_one :
    E0.createFrom4P pts4 = some C1cex ∧ C1cex.data.ratio = 2 ∧ 1 < C1cex.data.ratio := by
  refine ⟨createFrom4P_pts4_eval, rfl, by norm_num [C1cex]⟩

namespace RS_Ellipse

/-- How calculateBorders acts on each stored field: center, majorP, ratio and
reversed are kept; the two angles are zeroed together when both lie under the
angular tolerance; isArc and the box corners are recomputed. -/
theorem calcB_proj (st : RS_Ellipse) :
    st.calculateBorders.data.center = st.data.center ∧
    st.calculateBorders.data.majorP = st.data.majorP ∧
    st.calculateBorders.data.ratio = st.data.ratio ∧
    st.calculateBorders.data.reversed = st.data.reversed ∧
    st.calculateBorders.data.angle1 =
      (if |st.data.angle1| < RS_TOLERANCE_ANGLE ∧ |st.data.angle2| < RS_TOLERANCE_ANGLE
        then 0 else st.data.angle1) ∧
    st.calculateBorders.data.angle2 =
      (if |st.data.angle1| < RS_TOLERANCE_ANGLE ∧ |st.data.angle2| < RS_TOLERANCE_ANGLE
        then 0 else st.data.angle2) ∧
    st.calculateBorders.data.isArc = st.bordersData.data.isArc ∧
    st.calculateBorders.minV = st.bordersData.boundingRect.minP ∧
    st.calculateBorders.maxV = st.bordersData.boundingRect.maxP :=
  ⟨rfl, rfl, rfl, rfl, rfl, rfl, rfl, rfl, rfl⟩

theorem bordersData_data_isArc (st : RS_Ellipse) :
    st.bordersData.data.isArc =
      pbool (¬ st.bordersData.data.angle1 = 0 ∨ ¬ st.bordersData.data.angle2 = 0) := rfl

/-- The ratio written by the field updates of switchMajorMinor. -/
theorem switchMajorMinorCore_ratio (st : RS_Ellipse) :
    st.switchMajorMinorCore.data.ratio = 1 / st.data.ratio := by
  unfold switchMajorMinorCore
  cases hb : st.isEllipticArc <;> simp [hb]

end RS_Ellipse

/-- C1 amended: the ratio-domain invariant as the code actually maintains it:
createFromQuadratic always produces a ratio in (0, 1], and the explicit
major/minor-swap operation maps any state with ratio above 1 to one with
ratio in (0, 1); the fitter createFrom4P does not restore the invariant (see
the counterexample). -/
theorem ratio_normalization (st st' : RS_Ellipse) (dn : List ℝ) :
    (st.createFromQuadratic dn = some st' →
      0 < st'.data.ratio ∧ st'.data.ratio ≤ 1) ∧
    (1 < st.data.ratio →
      ∃ e, st.switchMajorMinor = some e ∧ 0 < e.data.ratio ∧ e.data.ratio < 1) := by
  constructor
  · intro h
    delta RS_Ellipse.createFromQuadratic at h
    simp only [] at h
    split at h
    · exact absurd h (by simp)
    split at h
    · exact absurd h (by simp)
    rename_i hlen hs
    rw [Option.some.injEq] at h
    subst h
    have hs0 : 0 ≤ Real.sqrt ((dn.getD 0 0 - dn.getD 2 0) ^ 2 + (dn.getD 1 0) ^ 2) :=
      Real.sqrt_nonneg _
    push_neg at hs
    constructor
    · apply Real.sqrt_pos.mpr
      apply div_pos <;> linarith
    · rw [show (1:ℝ) = Real.sqrt 1 from (Real.sqrt_one).symm]
      apply Real.sqrt_le_sqrt
      rw [div_le_one (by linarith)]
      linarith
  · intro hr
    have hrpos : (0:ℝ) < st.data.ratio := by linarith
    have hne : ¬ |st.data.ratio| < RS_TOLERANCE := by
      rw [abs_of_pos hrpos]
      norm_num [RS_TOLERANCE]
      linarith
    refine ⟨st.switchMajorMinorCore.calculateBorders, ?_, ?_, ?_⟩
    · delta RS_Ellipse.switchMajorMinor
      rw [if_neg hne]
    · rw [(RS_Ellipse.calcB_proj _).2.2.1, RS_Ellipse.switchMajorMinorCore_ratio]
      exact one_div_pos.mpr hrpos
    · rw [(RS_Ellipse.calcB_proj _).2.2.1, RS_Ellipse.switchMajorMinorCore_ratio]
      exact (div_lt_one hrpos).mpr hr

/-- The ellipse produced by createFromQuadratic on the unit-circle form. -/
def Equad : RS_Ellipse :=
  ⟨⟨⟨true, 0, 0⟩, ⟨true, 1, 0⟩, 1, 0, 0, false, false, 0, 0, 0, 0⟩,
    RS_Vector.invalid, RS_Vector.invalid, 0⟩

theorem createFromQuadratic_E0_eval : E0.createFromQuadratic [1, 0, 1] = some Equad := by
  unfold RS_Ellipse.createFromQuadratic
  rw [if_neg (by norm_num)]
  have hg0 : ([(1:ℝ), 0, 1].getD 0 0) = 1 := rfl
  have hg1 : ([(1:ℝ), 0, 1].getD 1 0) = 0 := rfl
  have hg2 : ([(1:ℝ), 0, 1].getD 2 0) = 1 := rfl
  simp only [hg0, hg1, hg2]
  have hs : Real.sqrt (((1:ℝ) - 1) ^ 2 + 0 ^ 2) = 0 := by
    norm_num
  rw [hs]
  rw [if_neg (by norm_num)]
  rw [if_pos (by norm_num)]
  have h1 : Real.sqrt (0.5 * ((1:ℝ) + 1 - 0)) = 1 := by
    norm_num
  have h2 : Real.sqrt (((1:ℝ) + 1 - 0) / (1 + 1 + 0)) = 1 := by
    norm_num
  rw [h1, h2]
  have hat : atan2 (1 - 1 + 0) (-0) = 0 := by
    simp [atan2]
  rw [hat]
  simp only [Option.some.injEq]
  unfold E0 Equad RS_Vector.fromAngle RS_Vector.smul
  norm_num

/-- C7: createFromQuadratic returns the failure result, without throwing,
whenever s = hypot(a-b, c) is at least a+b, equivalently whenever the smaller
eigenvalue (a+b-s)/2 of the symmetric matrix is non-positive; on success the
angles are reset to the whole-ellipse zero sentinel. -/
theorem createFromQuadratic_rejects (st : RS_Ellipse) (a c b : ℝ) :
    (a + b ≤ Real.sqrt ((a - b) ^ 2 + c ^ 2) →
      st.createFromQuadratic [a, c, b] = none) ∧
    (∀ st', st.createFromQuadratic [a, c, b] = some st' →
      st'.data.angle1 = 0 ∧ st'.data.angle2 = 0) ∧
    (a + b ≤ Real.sqrt ((a - b) ^ 2 + c ^ 2) ↔
      (a + b - Real.sqrt ((a - b) ^ 2 + c ^ 2)) / 2 ≤ 0) := by
  have hg0 : ([a, c, b].getD 0 0) = a := rfl
  have hg1 : ([a, c, b].getD 1 0) = c := rfl
  have hg2 : ([a, c, b].getD 2 0) = b := rfl
  refine ⟨?_, ?_, ?_⟩
  · intro h
    delta RS_Ellipse.createFromQuadratic
    simp only [hg0, hg1, hg2]
    rw [if_neg (by norm_num)]
    rw [if_pos h]
  · intro st' h
    delta RS_Ellipse.createFromQuadratic at h
    simp only [hg0, hg1, hg2] at h
    split at h
    · exact absurd h (by simp)
    split at h
    · exact absurd h (by simp)
    rw [Option.some.injEq] at h
    subst h
    exact ⟨rfl, rfl⟩
  · constructor <;> intro h <;> linarith

/-- Witness for C7: a hyperbolic form is rejected, and a successful fit
resets the angles. -/
theorem createFromQuadratic_rejects_witness :
    ((1:ℝ) + (-1) ≤ Real.sqrt ((1 - (-1)) ^ 2 + 0 ^ 2) ∧
      E0.createFromQuadratic [1, 0, -1] = none) ∧
    (Equad.data.angle1 = 0 ∧ Equad.data.angle2 = 0) := by
  have h : (1:ℝ) + (-1) ≤ Real.sqrt ((1 - (-1)) ^ 2 + 0 ^ 2) :=
    le_trans (by norm_num) (Real.sqrt_nonneg _)
  exact ⟨⟨h, (createFromQuadratic_rejects E0 1 0 (-1)).1 h⟩,
    (createFromQuadratic_rejects E0 1 0 1).2.1 Equad createFromQuadratic_E0_eval⟩

/-- Witness for the amended C1 at concrete inputs. -/
theorem ratio_normalization_witness :
    (0 < Equad.data.ratio ∧ Equad.data.ratio ≤ 1) ∧
    1 < C1cex.data.ratio ∧
    (∃ e, C1cex.switchMajorMinor = some e ∧ 0 < e.data.ratio ∧ e.data.ratio < 1) := by
  exact ⟨(ratio_normalization E0 Equad [1, 0, 1]).1 createFromQuadratic_E0_eval,
    by norm_num [C1cex],
    (ratio_normalization C1cex C1cex []).2 (by norm_num [C1cex])⟩

namespace RS_Ellipse

theorem bordersData_angle1 (st : RS_Ellipse) :
    st.bordersData.data.angle1 =
      (if |st.data.angle1| < RS_TOLERANCE_ANGLE ∧ |st.data.angle2| < RS_TOLERANCE_ANGLE
        then 0 else st.data.angle1) := rfl

theorem bordersData_angle2 (st : RS_Ellipse) :
    st.bordersData.data.angle2 =
      (if |st.data.angle1| < RS_TOLERANCE_ANGLE ∧ |st.data.angle2| < RS_TOLERANCE_ANGLE
        then 0 else st.data.angle2) := rfl

theorem revSwap_angle1 (st : RS_Ellipse) : st.revSwap.data.angle1 = st.data.angle2 := rfl

theorem revSwap_angle2 (st : RS_Ellipse) : st.revSwap.data.angle2 = st.data.angle1 := rfl

theorem revSwap_reversed (st : RS_Ellipse) :
    st.revSwap.data.reversed = !st.data.reversed := rfl

theorem revSwap_center (st : RS_Ellipse) : st.revSwap.data.center = st.data.center := rfl

theorem revSwap_majorP (st : RS_Ellipse) : st.revSwap.data.majorP = st.data.majorP := rfl

theorem revSwap_ratio (st : RS_Ellipse) : st.revSwap.data.ratio = st.data.ratio := rfl

end RS_Ellipse

/-- C9: revertDirection leaves a whole ellipse entirely unchanged; on an
elliptic arc whose angles are not both below the angular tolerance it swaps
the boundary angles and toggles the orientation flag, and applying it twice
restores all canonical fields (center, majorP, ratio, angle1, angle2,
reversed). -/
theorem revertDirection_involution (st : RS_Ellipse) :
    (st.data.isArc = false → st.revertDirection = st) ∧
    (st.data.isArc = true →
      (RS_TOLERANCE_ANGLE ≤ |st.data.angle1| ∨ RS_TOLERANCE_ANGLE ≤ |st.data.angle2|) →
      st.revertDirection.data.angle1 = st.data.angle2 ∧
      st.revertDirection.data.angle2 = st.data.angle1 ∧
      st.revertDirection.data.reversed = !st.data.reversed ∧
      st.revertDirection.revertDirection.data.center = st.data.center ∧
      st.revertDirection.revertDirection.data.majorP = st.data.majorP ∧
      st.revertDirection.revertDirection.data.ratio = st.data.ratio ∧
      st.revertDirection.revertDirection.data.angle1 = st.data.angle1 ∧
      st.revertDirection.revertDirection.data.angle2 = st.data.angle2 ∧
      st.revertDirection.revertDirection.data.reversed = st.data.reversed) := by
  constructor
  · intro h
    delta RS_Ellipse.revertDirection
    rw [h]
    simp
  · intro hArc htol
    have hTA : (0:ℝ) < RS_TOLERANCE_ANGLE := by norm_num [RS_TOLERANCE_ANGLE]
    have hcondS : ¬ (|st.data.angle2| < RS_TOLERANCE_ANGLE ∧
        |st.data.angle1| < RS_TOLERANCE_ANGLE) := by
      rcases htol with h | h
      · exact fun hc => absurd hc.2 (not_lt.mpr h)
      · exact fun hc => absurd hc.1 (not_lt.mpr h)
    have hcondO : ¬ (|st.data.angle1| < RS_TOLERANCE_ANGLE ∧
        |st.data.angle2| < RS_TOLERANCE_ANGLE) := by
      rcases htol with h | h
      · exact fun hc => absurd hc.1 (not_lt.mpr h)
      · exact fun hc => absurd hc.2 (not_lt.mpr h)
    have h1 : st.revertDirection = st.revSwap.calculateBorders := by
      delta RS_Ellipse.revertDirection
      rw [hArc]
      simp
    have e1 : st.revertDirection.data.angle1 = st.data.angle2 := by
      rw [h1, (RS_Ellipse.calcB_proj _).2.2.2.2.1, RS_Ellipse.revSwap_angle1,
        RS_Ellipse.revSwap_angle2]
      exact if_neg hcondS
    have e2 : st.revertDirection.data.angle2 = st.data.angle1 := by
      rw [h1, (RS_Ellipse.calcB_proj _).2.2.2.2.2.1, RS_Ellipse.revSwap_angle1,
        RS_Ellipse.revSwap_angle2]
      exact if_neg hcondS
    have e3 : st.revertDirection.data.reversed = !st.data.reversed := by
      rw [h1, (RS_Ellipse.calcB_proj _).2.2.2.1, RS_Ellipse.revSwap_reversed]
    have e4 : st.revertDirection.data.center = st.data.center := by
      rw [h1, (RS_Ellipse.calcB_proj _).1, RS_Ellipse.revSwap_center]
    have e5 : st.revertDirection.data.majorP = st.data.majorP := by
      rw [h1, (RS_Ellipse.calcB_proj _).2.1, RS_Ellipse.revSwap_majorP]
    have e6 : st.revertDirection.data.ratio = st.data.ratio := by
      rw [h1, (RS_Ellipse.calcB_proj _).2.2.1, RS_Ellipse.revSwap_ratio]
    have hArc1 : st.revertDirection.data.isArc = true := by
      rw [h1, (RS_Ellipse.calcB_proj _).2.2.2.2.2.2.1, RS_Ellipse.bordersData_data_isArc,
        RS_Ellipse.bordersData_angle1, RS_Ellipse.bordersData_angle2,
        RS_Ellipse.revSwap_angle1, RS_Ellipse.revSwap_angle2]
      rw [if_neg hcondS, if_neg hcondS]
      apply pbool_pos
      rcases htol with h | h
      · refine Or.inr (fun hz => ?_)
        rw [hz] at h
        simp at h
        linarith
      · refine Or.inl (fun hz => ?_)
        rw [hz] at h
        simp at h
        linarith
    have hrd : ∀ u : RS_Ellipse, u.data.isArc = true →
        u.revertDirection = u.revSwap.calculateBorders := by
      intro u hu
      delta RS_Ellipse.revertDirection
      rw [hu]
      simp
    have h2 : st.revertDirection.revertDirection =
        st.revertDirection.revSwap.calculateBorders := hrd _ hArc1
    have hcond2 : ¬ (|st.revertDirection.data.angle2| < RS_TOLERANCE_ANGLE ∧
        |st.revertDirection.data.angle1| < RS_TOLERANCE_ANGLE) := by
      rw [e1, e2]
      exact hcondO
    refine ⟨e1, e2, e3, ?_, ?_, ?_, ?_, ?_, ?_⟩
    · rw [h2, (RS_Ellipse.calcB_proj _).1, RS_Ellipse.revSwap_center]
      exact e4
    · rw [h2, (RS_Ellipse.calcB_proj _).2.1, RS_Ellipse.revSwap_majorP]
      exact e5
    · rw [h2, (RS_Ellipse.calcB_proj _).2.2.1, RS_Ellipse.revSwap_ratio]
      exact e6
    · rw [h2, (RS_Ellipse.calcB_proj _).2.2.2.2.1, RS_Ellipse.revSwap_angle1,
        RS_Ellipse.revSwap_angle2]
      rw [if_neg hcond2]
      exact e2
    · rw [h2, (RS_Ellipse.calcB_proj _).2.2.2.2.2.1, RS_Ellipse.revSwap_angle1,
        RS_Ellipse.revSwap_angle2]
      rw [if_neg hcond2]
      exact e1
    · rw [h2, (RS_Ellipse.calcB_proj _).2.2.2.1, RS_Ellipse.revSwap_reversed]
      rw [e3, Bool.not_not]

/-- A concrete elliptic arc: unit circle data restricted to angles 0 to pi. -/
def arcE : RS_Ellipse :=
  ⟨⟨⟨true, 0, 0⟩, ⟨true, 1, 0⟩, 1, 0, π, false, true, 0, 0, 0, 0⟩,
    RS_Vector.invalid, RS_Vector.invalid, 0⟩

/-- Witness for C9 on the concrete arc. -/
theorem revertDirection_involution_witness :
    arcE.revertDirection.data.angle1 = arcE.data.angle2 ∧
    arcE.revertDirection.data.angle2 = arcE.data.angle1 ∧
    arcE.revertDirection.data.reversed = !arcE.data.reversed ∧
    arcE.revertDirection.revertDirection.data.center = arcE.data.center ∧
    arcE.revertDirection.revertDirection.data.majorP = arcE.data.majorP ∧
    arcE.revertDirection.revertDirection.data.ratio = arcE.data.ratio ∧
    arcE.revertDirection.revertDirection.data.angle1 = arcE.data.angle1 ∧
    arcE.revertDirection.revertDirection.data.angle2 = arcE.data.angle2 ∧
    arcE.revertDirection.revertDirection.data.reversed = arcE.data.reversed := by
  apply (revertDirection_involution arcE).2
  · rfl
  · right
    rw [show arcE.data.angle2 = π from rfl, abs_of_pos Real.pi_pos]
    norm_num [RS_TOLERANCE_ANGLE]
    linarith [Real.pi_gt_three]

theorem E0_borders_angle1 : E0.bordersData.data.angle1 = 0 := by
  rw [RS_Ellipse.bordersData_angle1]
  split <;> rfl

theorem E0_borders_angle2 : E0.bordersData.data.angle2 = 0 := by
  rw [RS_Ellipse.bordersData_angle2]
  split <;> rfl

theorem E0_borders_isArc : E0.bordersData.data.isArc = false := by
  rw [RS_Ellipse.bordersData_data_isArc, E0_borders_angle1, E0_borders_angle2]
  exact pbool_neg (by simp)

theorem E0_majorRadius : E0.getMajorRadius = 10 := by
  show RS_Vector.magnitude ⟨true, 10, 0⟩ = 10
  rw [RS_Vector.magnitude]
  rw [show ((10:ℝ)^2 + 0^2) = 10^2 by norm_num, Real.sqrt_sq (by norm_num : (0:ℝ) ≤ 10)]

theorem E0_borders_majorRadius : E0.bordersData.getMajorRadius = 10 := E0_majorRadius

theorem E0_borders_getAngle : E0.bordersData.getAngle = 0 := by
  show RS_Vector.angle ⟨true, 10, 0⟩ = 0
  rw [angle_of_polar (c := 10) (θ := 0) (by norm_num)
    (by norm_num) (by norm_num)]
  exact correctAngle_eq_self le_rfl (by positivity)

theorem E0_point (t : ℝ) :
    E0.bordersData.getEllipsePoint t = ⟨true, 10 * Real.cos t, 5 * Real.sin t⟩ := by
  unfold RS_Ellipse.getEllipsePoint
  rw [E0_borders_getAngle, E0_borders_majorRadius]
  simp only [RS_Vector.fromAngle, RS_Vector.scale, RS_Vector.rotateAngle, RS_Vector.move,
    Real.cos_zero, Real.sin_zero, RS_Ellipse.getCenter]
  rw [show E0.bordersData.data.center = ⟨true, 0, 0⟩ from rfl,
    show E0.bordersData.getRatio = 1/2 from rfl]
  simp only [RS_Vector.mk.injEq, true_and]
  refine ⟨by ring, by ring⟩

theorem E0_between (a : ℝ) :
    RS_Math.isAngleBetween a E0.bordersData.getAngle1 E0.bordersData.getAngle2
      E0.bordersData.isReversed := by
  unfold RS_Math.isAngleBetween
  rw [show E0.bordersData.isReversed = E0.bordersData.data.reversed from rfl,
    show E0.bordersData.data.reversed = false from rfl]
  show between0 a E0.bordersData.getAngle1 E0.bordersData.getAngle2
  unfold between0
  left
  rw [show E0.bordersData.getAngle1 = E0.bordersData.data.angle1 from rfl,
    show E0.bordersData.getAngle2 = E0.bordersData.data.angle2 from rfl,
    E0_borders_angle1, E0_borders_angle2]
  rw [sub_zero]
  exact correctAngle_eq_self le_rfl (by positivity)

theorem E0_vpx_angle :
    (⟨true, E0.bordersData.getMajorP.x,
      -E0.bordersData.getRatio * E0.bordersData.getMajorP.y⟩ : RS_Vector).angle = 0 := by
  rw [angle_of_polar (c := 10) (θ := 0) (by norm_num)
    (by rw [show E0.bordersData.getMajorP.x = 10 from rfl]; norm_num)
    (by rw [show E0.bordersData.getMajorP.y = 0 from rfl]; norm_num)]
  exact correctAngle_eq_self le_rfl (by positivity)

theorem E0_vpy_angle :
    (⟨true, E0.bordersData.getMajorP.y,
      E0.bordersData.getRatio * E0.bordersData.getMajorP.x⟩ : RS_Vector).angle = π / 2 := by
  rw [angle_of_polar (c := 5) (θ := π / 2) (by norm_num)
    (by rw [show E0.bordersData.getMajorP.y = 0 from rfl]; norm_num [Real.cos_pi_div_two])
    (by rw [show E0.bordersData.getRatio = 1/2 from rfl,
          show E0.bordersData.getMajorP.x = 10 from rfl]
        norm_num [Real.sin_pi_div_two])]
  refine correctAngle_eq_self (by positivity) ?_
  have := Real.pi_pos
  linarith

theorem E0_boundingRect :
    E0.bordersData.boundingRect = some (⟨true, -10, -5⟩, ⟨true, 10, 5⟩) := by
  unfold RS_Ellipse.boundingRect RS_Ellipse.mergeBoundingBox
  rw [show E0.bordersData.isEllipticArc = E0.bordersData.data.isArc from rfl, E0_borders_isArc]
  simp only [Bool.false_eq_true, if_false]
  rw [E0_vpx_angle, E0_vpy_angle]
  rw [if_pos (E0_between 0), if_pos (E0_between (0 + π)),
    if_pos (E0_between (π / 2)), if_pos (E0_between (π / 2 + π))]
  rw [E0_point 0, E0_point (0 + π), E0_point (π / 2), E0_point (π / 2 + π)]
  rw [show (0:ℝ) + π = π by ring]
  simp only [Real.cos_zero, Real.sin_zero, Real.cos_pi, Real.sin_pi,
    Real.cos_pi_div_two, Real.sin_pi_div_two, Real.cos_add_pi, Real.sin_add_pi]
  unfold LC_Rect.empty LC_Rect.merge
  norm_num [min_def, max_def]

/-- C8: the concrete whole ellipse with center (0,0), major axis (10,0) and
ratio one half has bounding box corners (-10,-5) and (10,5), major radius 10,
minor radius 5, and foci at (plus/minus sqrt 75, 0). -/
theorem concrete_scenario_E0 :
    E0.calculateBorders.minV = ⟨true, -10, -5⟩ ∧
    E0.calculateBorders.maxV = ⟨true, 10, 5⟩ ∧
    E0.getMajorRadius = 10 ∧
    E0.getMinorRadius = 5 ∧
    E0.getFoci = [⟨true, Real.sqrt 75, 0⟩, ⟨true, -Real.sqrt 75, 0⟩] := by
  have h75 : 10 * Real.sqrt (1 - (1:ℝ)/2 * (1/2)) = Real.sqrt 75 := by
    rw [show (75:ℝ) = 100 * (1 - (1:ℝ)/2 * (1/2)) by norm_num,
      Real.sqrt_mul (by norm_num : (0:ℝ) ≤ 100),
      show Real.sqrt 100 = 10 by
        rw [show (100:ℝ) = 10^2 by norm_num, Real.sqrt_sq (by norm_num : (0:ℝ) ≤ 10)]]
  refine ⟨?_, ?_, E0_majorRadius, ?_, ?_⟩
  · rw [(RS_Ellipse.calcB_proj _).2.2.2.2.2.2.2.1, E0_boundingRect]
    rfl
  · rw [(RS_Ellipse.calcB_proj _).2.2.2.2.2.2.2.2, E0_boundingRect]
    rfl
  · show RS_Vector.magnitude ⟨true, 10, 0⟩ * (1/2) = 5
    rw [show RS_Vector.magnitude ⟨true, 10, 0⟩ = 10 from E0_majorRadius]
    norm_num
  · delta RS_Ellipse.getFoci
    simp only []
    rw [if_neg (by rw [show E0.getRatio = 1/2 from rfl]; norm_num)]
    simp only [RS_Vector.smul, RS_Vector.move, RS_Vector.neg, RS_Ellipse.getCenter,
      RS_Ellipse.getMajorP]
    rw [show E0.data.center = ⟨true, 0, 0⟩ from rfl,
      show E0.data.majorP = ⟨true, 10, 0⟩ from rfl,
      show E0.getRatio = 1/2 from rfl]
    simp only [List.cons.injEq, RS_Vector.mk.injEq, true_and, and_true]
    refine ⟨⟨by linear_combination h75, by ring⟩, by linear_combination -h75, by ring⟩

/-- The sinusoid giving one coordinate of the ellipse point map: the linear
combination of cosine and sine with the coefficients of a direction vector. -/
def lincos (v : RS_Vector) (θ : ℝ) : ℝ := v.x * Real.cos θ + v.y * Real.sin θ

theorem lincos_eq (v : RS_Vector) (θ : ℝ) :
    lincos v θ = v.magnitude * Real.cos (θ - v.angle) := by
  have hx := magnitude_mul_cos_angle v
  have hy := magnitude_mul_sin_angle v
  rw [Real.cos_sub]
  unfold lincos
  linear_combination (-(Real.cos θ)) * hx + (-(Real.sin θ)) * hy

theorem lincos_le_magnitude (v : RS_Vector) (θ : ℝ) : lincos v θ ≤ v.magnitude := by
  rw [lincos_eq]
  have h1 : Real.cos (θ - v.angle) ≤ 1 := Real.cos_le_one _
  have h2 := magnitude_nonneg v
  nlinarith

theorem neg_magnitude_le_lincos (v : RS_Vector) (θ : ℝ) : -v.magnitude ≤ lincos v θ := by
  rw [lincos_eq]
  have h1 : -1 ≤ Real.cos (θ - v.angle) := Real.neg_one_le_cos _
  have h2 := magnitude_nonneg v
  nlinarith

theorem lincos_at_angle (v : RS_Vector) : lincos v v.angle = v.magnitude := by
  rw [lincos_eq, sub_self, Real.cos_zero, mul_one]

theorem lincos_at_angle_add_pi (v : RS_Vector) : lincos v (v.angle + π) = -v.magnitude := by
  rw [lincos_eq, show v.angle + π - v.angle = π by ring, Real.cos_pi]
  ring

theorem lincos_neg (v : RS_Vector) (θ : ℝ) : lincos v.neg θ = -(lincos v θ) := by
  unfold lincos RS_Vector.neg
  dsimp only
  ring

/-- On any interval inside one full period to the left of a maximum of the
cosine, the cosine is bounded by its values at the interval endpoints. -/
theorem cos_le_max_endpoints {u v x : ℝ} (hu : -(2 * π) ≤ u) (hux : u ≤ x)
    (hxv : x ≤ v) (hv : v ≤ 0) :
    Real.cos x ≤ max (Real.cos u) (Real.cos v) := by
  rcases le_or_lt x (-π) with h | h
  · refine le_max_of_le_left ?_
    have hπ := Real.pi_pos
    have hc := Real.cos_le_cos_of_nonneg_of_le_pi
      (x := u + 2 * π) (y := x + 2 * π) (by linarith) (by linarith) (by linarith)
    rwa [Real.cos_add_two_pi, Real.cos_add_two_pi] at hc
  · refine le_max_of_le_right ?_
    have hπ := Real.pi_pos
    have hc := Real.cos_le_cos_of_nonneg_of_le_pi
      (x := -v) (y := -x) (by linarith) (by linarith) (by linarith)
    rwa [Real.cos_neg, Real.cos_neg] at hc

theorem between0_shift (θ b1 b2 : ℝ) (k : ℤ) :
    between0 (θ + 2 * π * k) b1 b2 ↔ between0 θ b1 b2 := by
  unfold between0
  rw [show θ + 2 * π * k - b1 = (θ - b1) + 2 * π * k by ring, correctAngle_add_int]

theorem correctAngle_decomp (x : ℝ) : ∃ k : ℤ, x = correctAngle x + 2 * π * k := by
  refine ⟨⌊x / (2 * π)⌋, ?_⟩
  simp only [correctAngle]
  ring

/-- When the maximum direction of the sinusoid does not lie on the kept arc,
the sinusoid on the arc is bounded by its endpoint values. -/
theorem lincos_le_max_endpoints (v : RS_Vector) (b1 b2 θ : ℝ)
    (hθ : between0 θ b1 b2) (hm : ¬ between0 v.angle b1 b2) :
    lincos v θ ≤ max (lincos v b1) (lincos v b2) := by
  unfold between0 at hθ hm
  push_neg at hm
  obtain ⟨hδ0, hμδ⟩ := hm
  rcases hθ with h | hθ
  · exact absurd h hδ0
  rw [← not_le] at hμδ
  push_neg at hμδ
  have key : Real.cos (θ - v.angle) ≤
      max (Real.cos (b1 - v.angle)) (Real.cos (b2 - v.angle)) := by
    obtain ⟨k1, hk1⟩ := correctAngle_decomp (θ - b1)
    obtain ⟨k2, hk2⟩ := correctAngle_decomp (v.angle - b1)
    obtain ⟨k3, hk3⟩ := correctAngle_decomp (b2 - b1)
    have e1 : Real.cos (θ - v.angle) =
        Real.cos (correctAngle (θ - b1) - correctAngle (v.angle - b1)) := by
      have e : θ - v.angle = (correctAngle (θ - b1) - correctAngle (v.angle - b1)) +
          ((k1 - k2 : ℤ) : ℝ) * (2 * π) := by
        push_cast
        linarith [hk1, hk2]
      rw [e]
      exact Real.cos_add_int_mul_two_pi _ _
    have e2 : Real.cos (b1 - v.angle) = Real.cos (-(correctAngle (v.angle - b1))) := by
      have e : b1 - v.angle = -(correctAngle (v.angle - b1)) + ((-k2 : ℤ) : ℝ) * (2 * π) := by
        push_cast
        linarith [hk2]
      rw [e]
      exact Real.cos_add_int_mul_two_pi _ _
    have e3 : Real.cos (b2 - v.angle) =
        Real.cos (correctAngle (b2 - b1) - correctAngle (v.angle - b1)) := by
      have e : b2 - v.angle = (correctAngle (b2 - b1) - correctAngle (v.angle - b1)) +
          ((k3 - k2 : ℤ) : ℝ) * (2 * π) := by
        push_cast
        linarith [hk3, hk2]
      rw [e]
      exact Real.cos_add_int_mul_two_pi _ _
    rw [e1, e2, e3]
    apply cos_le_max_endpoints
    · linarith [correctAngle_lt (v.angle - b1)]
    · linarith [correctAngle_nonneg (θ - b1)]
    · linarith [hθ]
    · linarith [hμδ]
  rw [lincos_eq v θ, lincos_eq v b1, lincos_eq v b2]
  have hmag := magnitude_nonneg v
  calc v.magnitude * Real.cos (θ - v.angle)
      ≤ v.magnitude * max (Real.cos (b1 - v.angle)) (Real.cos (b2 - v.angle)) :=
        mul_le_mul_of_nonneg_left key hmag
    _ = max (v.magnitude * Real.cos (b1 - v.angle))
          (v.magnitude * Real.cos (b2 - v.angle)) := mul_max_of_nonneg _ _ hmag

/-- The angle of the negated vector is the opposite angle, canonicalized. -/
theorem angle_neg (v : RS_Vector) (hz : ¬ (v.x = 0 ∧ v.y = 0)) :
    v.neg.angle = correctAngle (v.angle + π) := by
  have hmagpos : 0 < v.magnitude := by
    apply Real.sqrt_pos.mpr
    rcases not_and_or.mp hz with h | h
    · have h2 : 0 < v.x * v.x := mul_self_pos.mpr h
      nlinarith [sq_nonneg v.y]
    · have h2 : 0 < v.y * v.y := mul_self_pos.mpr h
      nlinarith [sq_nonneg v.x]
  apply angle_of_polar hmagpos
  · show -v.x = v.magnitude * Real.cos (v.angle + π)
    rw [Real.cos_add_pi]
    linear_combination magnitude_mul_cos_angle v
  · show -v.y = v.magnitude * Real.sin (v.angle + π)
    rw [Real.sin_add_pi]
    linear_combination magnitude_mul_sin_angle v

/-- When the minimum direction of the sinusoid does not lie on the kept arc,
the sinusoid on the arc is bounded below by its endpoint values. -/
theorem min_le_lincos_endpoints (v : RS_Vector) (b1 b2 θ : ℝ)
    (hθ : between0 θ b1 b2) (hm : ¬ between0 (v.angle + π) b1 b2) :
    min (lincos v b1) (lincos v b2) ≤ lincos v θ := by
  by_cases hz : v.x = 0 ∧ v.y = 0
  · unfold lincos
    rw [hz.1, hz.2]
    simp
  · have hm' : ¬ between0 v.neg.angle b1 b2 := by
      rw [angle_neg v hz]
      obtain ⟨k, hk⟩ := correctAngle_spec (v.angle + π)
      rw [hk, between0_shift]
      exact hm
    have h := lincos_le_max_endpoints v.neg b1 b2 θ hθ hm'
    rw [lincos_neg, lincos_neg, lincos_neg, max_neg_neg] at h
    linarith

/-- Membership of an x value in the horizontal extent of a rectangle. -/
def inBoxX : LC_Rect → ℝ → Prop
  | none, _ => False
  | some (lo, hi), t => lo.x ≤ t ∧ t ≤ hi.x

/-- Membership of a y value in the vertical extent of a rectangle. -/
def inBoxY : LC_Rect → ℝ → Prop
  | none, _ => False
  | some (lo, hi), t => lo.y ≤ t ∧ t ≤ hi.y

theorem inBoxX_merge_self (r : LC_Rect) (p : RS_Vector) : inBoxX (r.merge p) p.x := by
  match r with
  | none => exact ⟨le_refl _, le_refl _⟩
  | some (lo, hi) => exact ⟨min_le_right _ _, le_max_right _ _⟩

theorem inBoxY_merge_self (r : LC_Rect) (p : RS_Vector) : inBoxY (r.merge p) p.y := by
  match r with
  | none => exact ⟨le_refl _, le_refl _⟩
  | some (lo, hi) => exact ⟨min_le_right _ _, le_max_right _ _⟩

theorem inBoxX_merge_mono (r : LC_Rect) (p : RS_Vector) (t : ℝ) (h : inBoxX r t) :
    inBoxX (r.merge p) t := by
  match r with
  | none => exact absurd h id
  | some (lo, hi) =>
    exact ⟨le_trans (min_le_left _ _) h.1, le_trans h.2 (le_max_left _ _)⟩

theorem inBoxY_merge_mono (r : LC_Rect) (p : RS_Vector) (t : ℝ) (h : inBoxY r t) :
    inBoxY (r.merge p) t := by
  match r with
  | none => exact absurd h id
  | some (lo, hi) =>
    exact ⟨le_trans (min_le_left _ _) h.1, le_trans h.2 (le_max_left _ _)⟩

theorem inBoxX_condMerge (c : Prop) (r : LC_Rect) (p : RS_Vector) (t : ℝ)
    (h : inBoxX r t) : inBoxX (if c then r.merge p else r) t := by
  split
  · exact inBoxX_merge_mono r p t h
  · exact h

theorem inBoxY_condMerge (c : Prop) (r : LC_Rect) (p : RS_Vector) (t : ℝ)
    (h : inBoxY r t) : inBoxY (if c then r.merge p else r) t := by
  split
  · exact inBoxY_merge_mono r p t h
  · exact h

theorem inBoxX_fromPoints_left (p q : RS_Vector) :
    inBoxX (LC_Rect.fromPoints p q) p.x := ⟨min_le_left _ _, le_max_left _ _⟩

theorem inBoxX_fromPoints_right (p q : RS_Vector) :
    inBoxX (LC_Rect.fromPoints p q) q.x := ⟨min_le_right _ _, le_max_right _ _⟩

theorem inBoxY_fromPoints_left (p q : RS_Vector) :
    inBoxY (LC_Rect.fromPoints p q) p.y := ⟨min_le_left _ _, le_max_left _ _⟩

theorem inBoxY_fromPoints_right (p q : RS_Vector) :
    inBoxY (LC_Rect.fromPoints p q) q.y := ⟨min_le_right _ _, le_max_right _ _⟩

theorem inBoxX_max (r : LC_Rect) (t1 t2 : ℝ) (h1 : inBoxX r t1) (h2 : inBoxX r t2) :
    inBoxX r (max t1 t2) := by
  match r with
  | none => exact absurd h1 id
  | some (lo, hi) => exact ⟨le_trans h1.1 (le_max_left _ _), max_le h1.2 h2.2⟩

theorem inBoxX_min (r : LC_Rect) (t1 t2 : ℝ) (h1 : inBoxX r t1) (h2 : inBoxX r t2) :
    inBoxX r (min t1 t2) := by
  match r with
  | none => exact absurd h1 id
  | some (lo, hi) => exact ⟨le_min h1.1 h2.1, le_trans (min_le_left _ _) h1.2⟩

theorem inBoxY_max (r : LC_Rect) (t1 t2 : ℝ) (h1 : inBoxY r t1) (h2 : inBoxY r t2) :
    inBoxY r (max t1 t2) := by
  match r with
  | none => exact absurd h1 id
  | some (lo, hi) => exact ⟨le_trans h1.1 (le_max_left _ _), max_le h1.2 h2.2⟩

theorem inBoxY_min (r : LC_Rect) (t1 t2 : ℝ) (h1 : inBoxY r t1) (h2 : inBoxY r t2) :
    inBoxY r (min t1 t2) := by
  match r with
  | none => exact absurd h1 id
  | some (lo, hi) => exact ⟨le_min h1.1 h2.1, le_trans (min_le_left _ _) h1.2⟩

theorem inBoxX_between (r : LC_Rect) (t1 t2 s : ℝ) (h1 : inBoxX r t1)
    (h2 : inBoxX r t2) (hlo : t2 ≤ s) (hhi : s ≤ t1) : inBoxX r s := by
  match r with
  | none => exact absurd h1 id
  | some (lo, hi) => exact ⟨le_trans h2.1 hlo, le_trans hhi h1.2⟩

theorem inBoxY_between (r : LC_Rect) (t1 t2 s : ℝ) (h1 : inBoxY r t1)
    (h2 : inBoxY r t2) (hlo : t2 ≤ s) (hhi : s ≤ t1) : inBoxY r s := by
  match r with
  | none => exact absurd h1 id
  | some (lo, hi) => exact ⟨le_trans h2.1 hlo, le_trans hhi h1.2⟩

theorem minPx_le_of_inBoxX (r : LC_Rect) (t : ℝ) (h : inBoxX r t) : r.minP.x ≤ t := by
  match r with
  | none => exact absurd h id
  | some (lo, hi) => exact h.1

theorem le_maxPx_of_inBoxX (r : LC_Rect) (t : ℝ) (h : inBoxX r t) : t ≤ r.maxP.x := by
  match r with
  | none => exact absurd h id
  | some (lo, hi) => exact h.2

theorem minPy_le_of_inBoxY (r : LC_Rect) (t : ℝ) (h : inBoxY r t) : r.minP.y ≤ t := by
  match r with
  | none => exact absurd h id
  | some (lo, hi) => exact h.1

theorem le_maxPy_of_inBoxY (r : LC_Rect) (t : ℝ) (h : inBoxY r t) : t ≤ r.maxP.y := by
  match r with
  | none => exact absurd h id
  | some (lo, hi) => exact h.2

/-- The x coordinate of the parametric point map is the sinusoid of the
x-extremal direction vector used by calculateBorders. -/
theorem getEllipsePoint_x (st : RS_Ellipse) (θ : ℝ) :
    (st.getEllipsePoint θ).x = st.getCenter.x +
      lincos ⟨true, st.getMajorP.x, -st.getRatio * st.getMajorP.y⟩ θ := by
  have hx := magnitude_mul_cos_angle st.data.majorP
  have hy := magnitude_mul_sin_angle st.data.majorP
  unfold RS_Ellipse.getEllipsePoint lincos
  simp only [RS_Vector.fromAngle, RS_Vector.scale, RS_Vector.rotateAngle, RS_Vector.move,
    RS_Ellipse.getMajorRadius, RS_Ellipse.getAngle, RS_Ellipse.getMajorP,
    RS_Ellipse.getRatio, RS_Ellipse.getCenter]
  linear_combination (Real.cos θ) * hx - (Real.sin θ) * st.data.ratio * hy

/-- The y coordinate of the parametric point map is the sinusoid of the
y-extremal direction vector used by calculateBorders. -/
theorem getEllipsePoint_y (st : RS_Ellipse) (θ : ℝ) :
    (st.getEllipsePoint θ).y = st.getCenter.y +
      lincos ⟨true, st.getMajorP.y, st.getRatio * st.getMajorP.x⟩ θ := by
  have hx := magnitude_mul_cos_angle st.data.majorP
  have hy := magnitude_mul_sin_angle st.data.majorP
  unfold RS_Ellipse.getEllipsePoint lincos
  simp only [RS_Vector.fromAngle, RS_Vector.scale, RS_Vector.rotateAngle, RS_Vector.move,
    RS_Ellipse.getMajorRadius, RS_Ellipse.getAngle, RS_Ellipse.getMajorP,
    RS_Ellipse.getRatio, RS_Ellipse.getCenter]
  linear_combination (Real.cos θ) * hy + (Real.sin θ) * st.data.ratio * hx

theorem mergeBoundingBox_monoX (st : RS_Ellipse) (box : LC_Rect) (v : RS_Vector) (t : ℝ)
    (h : inBoxX box t) : inBoxX (st.mergeBoundingBox box v) t := by
  unfold RS_Ellipse.mergeBoundingBox
  apply inBoxX_condMerge
  apply inBoxX_condMerge
  exact h

theorem mergeBoundingBox_monoY (st : RS_Ellipse) (box : LC_Rect) (v : RS_Vector) (t : ℝ)
    (h : inBoxY box t) : inBoxY (st.mergeBoundingBox box v) t := by
  unfold RS_Ellipse.mergeBoundingBox
  apply inBoxY_condMerge
  apply inBoxY_condMerge
  exact h

theorem mergeBoundingBox_selfX (st : RS_Ellipse) (box : LC_Rect) (v : RS_Vector)
    (hc : RS_Math.isAngleBetween v.angle st.getAngle1 st.getAngle2 st.isReversed) :
    inBoxX (st.mergeBoundingBox box v) ((st.getEllipsePoint v.angle).x) := by
  unfold RS_Ellipse.mergeBoundingBox
  apply inBoxX_condMerge
  rw [if_pos hc]
  exact inBoxX_merge_self _ _

theorem mergeBoundingBox_selfY (st : RS_Ellipse) (box : LC_Rect) (v : RS_Vector)
    (hc : RS_Math.isAngleBetween v.angle st.getAngle1 st.getAngle2 st.isReversed) :
    inBoxY (st.mergeBoundingBox box v) ((st.getEllipsePoint v.angle).y) := by
  unfold RS_Ellipse.mergeBoundingBox
  apply inBoxY_condMerge
  rw [if_pos hc]
  exact inBoxY_merge_self _ _

theorem mergeBoundingBox_selfX_pi (st : RS_Ellipse) (box : LC_Rect) (v : RS_Vector)
    (hc : RS_Math.isAngleBetween (v.angle + π) st.getAngle1 st.getAngle2 st.isReversed) :
    inBoxX (st.mergeBoundingBox box v) ((st.getEllipsePoint (v.angle + π)).x) := by
  unfold RS_Ellipse.mergeBoundingBox
  rw [if_pos hc]
  exact inBoxX_merge_self _ _

theorem mergeBoundingBox_selfY_pi (st : RS_Ellipse) (box : LC_Rect) (v : RS_Vector)
    (hc : RS_Math.isAngleBetween (v.angle + π) st.getAngle1 st.getAngle2 st.isReversed) :
    inBoxY (st.mergeBoundingBox box v) ((st.getEllipsePoint (v.angle + π)).y) := by
  unfold RS_Ellipse.mergeBoundingBox
  rw [if_pos hc]
  exact inBoxY_merge_self _ _

/-- The first kept-arc bound in the unreversed orientation. -/
def arcB1 (st : RS_Ellipse) : ℝ := cond st.isReversed st.getAngle2 st.getAngle1

/-- The second kept-arc bound in the unreversed orientation. -/
def arcB2 (st : RS_Ellipse) : ℝ := cond st.isReversed st.getAngle1 st.getAngle2

/-- Membership of a parametric angle on the kept arc. -/
def onArc (st : RS_Ellipse) (a : ℝ) : Prop := between0 a (arcB1 st) (arcB2 st)

/-- The kept span is the whole circle. -/
def arcFull (st : RS_Ellipse) : Prop := correctAngle (arcB2 st - arcB1 st) = 0

theorem onArc_eq_isAngleBetween (st : RS_Ellipse) (a : ℝ) :
    onArc st a = RS_Math.isAngleBetween a st.getAngle1 st.getAngle2 st.isReversed := rfl

/-- Generic escort argument for the x coordinate: the value of the sinusoid
on the kept arc lies in the box provided the box contains its conditionally
merged extremal points and, when the span is not the whole circle, the two
seed endpoints. -/
theorem escortX (st : RS_Ellipse) (B : LC_Rect) (v : RS_Vector) (θ : ℝ)
    (hθ : onArc st θ)
    (hva : onArc st v.angle → inBoxX B ((st.getEllipsePoint v.angle).x))
    (hvb : onArc st (v.angle + π) → inBoxX B ((st.getEllipsePoint (v.angle + π)).x))
    (hseed : ¬ arcFull st → inBoxX B ((st.getEllipsePoint (arcB1 st)).x) ∧
      inBoxX B ((st.getEllipsePoint (arcB2 st)).x))
    (hcoord : ∀ a, (st.getEllipsePoint a).x = st.getCenter.x + lincos v a) :
    inBoxX B ((st.getEllipsePoint θ).x) := by
  have hup : ∃ t, inBoxX B t ∧ (st.getEllipsePoint θ).x ≤ t := by
    by_cases hin : onArc st v.angle
    · refine ⟨_, hva hin, ?_⟩
      rw [hcoord θ, hcoord v.angle, lincos_at_angle]
      linarith [lincos_le_magnitude v θ]
    · have hδ : ¬ arcFull st := fun h => hin (Or.inl h)
      obtain ⟨h1, h2⟩ := hseed hδ
      refine ⟨_, inBoxX_max _ _ _ h1 h2, ?_⟩
      rw [hcoord θ, hcoord (arcB1 st), hcoord (arcB2 st)]
      have h := lincos_le_max_endpoints v (arcB1 st) (arcB2 st) θ hθ hin
      rcases le_total (lincos v (arcB1 st)) (lincos v (arcB2 st)) with hc | hc
      · rw [max_eq_right hc] at h
        exact le_max_of_le_right (by linarith)
      · rw [max_eq_left hc] at h
        exact le_max_of_le_left (by linarith)
  have hdn : ∃ t, inBoxX B t ∧ t ≤ (st.getEllipsePoint θ).x := by
    by_cases hin : onArc st (v.angle + π)
    · refine ⟨_, hvb hin, ?_⟩
      rw [hcoord θ, hcoord (v.angle + π), lincos_at_angle_add_pi]
      linarith [neg_magnitude_le_lincos v θ]
    · have hδ : ¬ arcFull st := fun h => hin (Or.inl h)
      obtain ⟨h1, h2⟩ := hseed hδ
      refine ⟨_, inBoxX_min _ _ _ h1 h2, ?_⟩
      rw [hcoord θ, hcoord (arcB1 st), hcoord (arcB2 st)]
      have h := min_le_lincos_endpoints v (arcB1 st) (arcB2 st) θ hθ hin
      rcases le_total (lincos v (arcB1 st)) (lincos v (arcB2 st)) with hc | hc
      · rw [min_eq_left hc] at h
        exact le_trans (min_le_left _ _) (by linarith)
      · rw [min_eq_right hc] at h
        exact le_trans (min_le_right _ _) (by linarith)
  obtain ⟨t1, hm1, hb1⟩ := hup
  obtain ⟨t2, hm2, hb2⟩ := hdn
  exact inBoxX_between B t1 t2 _ hm1 hm2 hb2 hb1

/-- Generic escort argument for the y coordinate. -/
theorem escortY (st : RS_Ellipse) (B : LC_Rect) (v : RS_Vector) (θ : ℝ)
    (hθ : onArc st θ)
    (hva : onArc st v.angle → inBoxY B ((st.getEllipsePoint v.angle).y))
    (hvb : onArc st (v.angle + π) → inBoxY B ((st.getEllipsePoint (v.angle + π)).y))
    (hseed : ¬ arcFull st → inBoxY B ((st.getEllipsePoint (arcB1 st)).y) ∧
      inBoxY B ((st.getEllipsePoint (arcB2 st)).y))
    (hcoord : ∀ a, (st.getEllipsePoint a).y = st.getCenter.y + lincos v a) :
    inBoxY B ((st.getEllipsePoint θ).y) := by
  have hup : ∃ t, inBoxY B t ∧ (st.getEllipsePoint θ).y ≤ t := by
    by_cases hin : onArc st v.angle
    · refine ⟨_, hva hin, ?_⟩
      rw [hcoord θ, hcoord v.angle, lincos_at_angle]
      linarith [lincos_le_magnitude v θ]
    · have hδ : ¬ arcFull st := fun h => hin (Or.inl h)
      obtain ⟨h1, h2⟩ := hseed hδ
      refine ⟨_, inBoxY_max _ _ _ h1 h2, ?_⟩
      rw [hcoord θ, hcoord (arcB1 st), hcoord (arcB2 st)]
      have h := lincos_le_max_endpoints v (arcB1 st) (arcB2 st) θ hθ hin
      rcases le_total (lincos v (arcB1 st)) (lincos v (arcB2 st)) with hc | hc
      · rw [max_eq_right hc] at h
        exact le_max_of_le_right (by linarith)
      · rw [max_eq_left hc] at h
        exact le_max_of_le_left (by linarith)
  have hdn : ∃ t, inBoxY B t ∧ t ≤ (st.getEllipsePoint θ).y := by
    by_cases hin : onArc st (v.angle + π)
    · refine ⟨_, hvb hin, ?_⟩
      rw [hcoord θ, hcoord (v.angle + π), lincos_at_angle_add_pi]
      linarith [neg_magnitude_le_lincos v θ]
    · have hδ : ¬ arcFull st := fun h => hin (Or.inl h)
      obtain ⟨h1, h2⟩ := hseed hδ
      refine ⟨_, inBoxY_min _ _ _ h1 h2, ?_⟩
      rw [hcoord θ, hcoord (arcB1 st), hcoord (arcB2 st)]
      have h := min_le_lincos_endpoints v (arcB1 st) (arcB2 st) θ hθ hin
      rcases le_total (lincos v (arcB1 st)) (lincos v (arcB2 st)) with hc | hc
      · rw [min_eq_left hc] at h
        exact le_trans (min_le_left _ _) (by linarith)
      · rw [min_eq_right hc] at h
        exact le_trans (min_le_right _ _) (by linarith)
  obtain ⟨t1, hm1, hb1⟩ := hup
  obtain ⟨t2, hm2, hb2⟩ := hdn
  exact inBoxY_between B t1 t2 _ hm1 hm2 hb2 hb1

/-- Containment of every kept-arc point in the rectangle computed by
calculateBorders (stated on a state whose isArc flag is consistent with its
angles, as the angle-normalization prologue guarantees). -/
theorem boundingRect_contains (st : RS_Ellipse)
    (hArc : st.data.isArc = pbool (¬ st.data.angle1 = 0 ∨ ¬ st.data.angle2 = 0))
    (θ : ℝ)
    (hθ : RS_Math.isAngleBetween θ st.getAngle1 st.getAngle2 st.isReversed) :
    inBoxX st.boundingRect ((st.getEllipsePoint θ).x) ∧
    inBoxY st.boundingRect ((st.getEllipsePoint θ).y) := by
  have hθ' : onArc st θ := hθ
  have hB0 : st.boundingRect = st.mergeBoundingBox (st.mergeBoundingBox
      (if st.isEllipticArc then LC_Rect.fromPoints st.getStartpoint st.getEndpoint
        else LC_Rect.empty)
      ⟨true, st.getMajorP.x, -st.getRatio * st.getMajorP.y⟩)
      ⟨true, st.getMajorP.y, st.getRatio * st.getMajorP.x⟩ := rfl
  have hseed : ¬ arcFull st →
      (inBoxX st.boundingRect ((st.getEllipsePoint (arcB1 st)).x) ∧
        inBoxX st.boundingRect ((st.getEllipsePoint (arcB2 st)).x)) ∧
      (inBoxY st.boundingRect ((st.getEllipsePoint (arcB1 st)).y) ∧
        inBoxY st.boundingRect ((st.getEllipsePoint (arcB2 st)).y)) := by
    intro hδ
    have hArcT : st.isEllipticArc = true := by
      show st.data.isArc = true
      rw [hArc]
      apply pbool_pos
      by_contra hn
      push_neg at hn
      apply hδ
      show correctAngle (arcB2 st - arcB1 st) = 0
      rw [show arcB1 st = cond st.isReversed st.getAngle2 st.getAngle1 from rfl,
        show arcB2 st = cond st.isReversed st.getAngle1 st.getAngle2 from rfl,
        show st.getAngle1 = st.data.angle1 from rfl,
        show st.getAngle2 = st.data.angle2 from rfl, hn.1, hn.2,
        Bool.cond_self, sub_zero]
      exact correctAngle_eq_self le_rfl (by positivity)
    have hstart : st.getStartpoint = st.getEllipsePoint st.getAngle1 := by
      unfold RS_Ellipse.getStartpoint
      rw [hArcT]
      rfl
    have hend : st.getEndpoint = st.getEllipsePoint st.getAngle2 := by
      unfold RS_Ellipse.getEndpoint
      rw [hArcT]
      rfl
    have hbox0 : (if st.isEllipticArc then
        LC_Rect.fromPoints st.getStartpoint st.getEndpoint else LC_Rect.empty) =
        LC_Rect.fromPoints (st.getEllipsePoint st.getAngle1)
          (st.getEllipsePoint st.getAngle2) := by
      rw [hArcT, hstart, hend]
      rfl
    rw [hB0, hbox0]
    cases hrev : st.isReversed
    · rw [show arcB1 st = cond st.isReversed st.getAngle2 st.getAngle1 from rfl,
        show arcB2 st = cond st.isReversed st.getAngle1 st.getAngle2 from rfl, hrev]
      simp only [Bool.cond_false]
      exact ⟨⟨mergeBoundingBox_monoX _ _ _ _ (mergeBoundingBox_monoX _ _ _ _
          (inBoxX_fromPoints_left _ _)),
        mergeBoundingBox_monoX _ _ _ _ (mergeBoundingBox_monoX _ _ _ _
          (inBoxX_fromPoints_right _ _))⟩,
        ⟨mergeBoundingBox_monoY _ _ _ _ (mergeBoundingBox_monoY _ _ _ _
          (inBoxY_fromPoints_left _ _)),
        mergeBoundingBox_monoY _ _ _ _ (mergeBoundingBox_monoY _ _ _ _
          (inBoxY_fromPoints_right _ _))⟩⟩
    · rw [show arcB1 st = cond st.isReversed st.getAngle2 st.getAngle1 from rfl,
        show arcB2 st = cond st.isReversed st.getAngle1 st.getAngle2 from rfl, hrev]
      simp only [Bool.cond_true]
      exact ⟨⟨mergeBoundingBox_monoX _ _ _ _ (mergeBoundingBox_monoX _ _ _ _
          (inBoxX_fromPoints_right _ _)),
        mergeBoundingBox_monoX _ _ _ _ (mergeBoundingBox_monoX _ _ _ _
          (inBoxX_fromPoints_left _ _))⟩,
        ⟨mergeBoundingBox_monoY _ _ _ _ (mergeBoundingBox_monoY _ _ _ _
          (inBoxY_fromPoints_right _ _)),
        mergeBoundingBox_monoY _ _ _ _ (mergeBoundingBox_monoY _ _ _ _
          (inBoxY_fromPoints_left _ _))⟩⟩
  constructor
  · refine escortX st st.boundingRect
      ⟨true, st.getMajorP.x, -st.getRatio * st.getMajorP.y⟩ θ hθ' ?_ ?_
      (fun hδ => (hseed hδ).1) (getEllipsePoint_x st)
    · intro hin
      rw [hB0]
      exact mergeBoundingBox_monoX _ _ _ _ (mergeBoundingBox_selfX _ _ _ hin)
    · intro hin
      rw [hB0]
      exact mergeBoundingBox_monoX _ _ _ _ (mergeBoundingBox_selfX_pi _ _ _ hin)
  · refine escortY st st.boundingRect
      ⟨true, st.getMajorP.y, st.getRatio * st.getMajorP.x⟩ θ hθ' ?_ ?_
      (fun hδ => (hseed hδ).2) (getEllipsePoint_y st)
    · intro hin
      rw [hB0]
      exact mergeBoundingBox_selfY _ _ _ hin
    · intro hin
      rw [hB0]
      exact mergeBoundingBox_selfY_pi _ _ _ hin

/-- Ellipse points agree between two states sharing center, major axis and
ratio. -/
theorem getEllipsePoint_congr (s t : RS_Ellipse) (hc : s.data.center = t.data.center)
    (hm : s.data.majorP = t.data.majorP) (hr : s.data.ratio = t.data.ratio) (a : ℝ) :
    s.getEllipsePoint a = t.getEllipsePoint a := by
  unfold RS_Ellipse.getEllipsePoint RS_Ellipse.getMajorRadius RS_Ellipse.getAngle
    RS_Ellipse.getRatio RS_Ellipse.getCenter
  rw [hc, hm, hr]

/-- C6: after calculateBorders, every ellipse point whose parametric angle
lies on the kept arc (everything, for a whole ellipse) is contained in the
computed bounding box, inclusively. -/
theorem calculateBorders_contains (st : RS_Ellipse) (θ : ℝ)
    (hθ : RS_Math.isAngleBetween θ st.calculateBorders.getAngle1
      st.calculateBorders.getAngle2 st.calculateBorders.isReversed) :
    st.calculateBorders.minV.x ≤ (st.calculateBorders.getEllipsePoint θ).x ∧
    (st.calculateBorders.getEllipsePoint θ).x ≤ st.calculateBorders.maxV.x ∧
    st.calculateBorders.minV.y ≤ (st.calculateBorders.getEllipsePoint θ).y ∧
    (st.calculateBorders.getEllipsePoint θ).y ≤ st.calculateBorders.maxV.y := by
  have hθ' : RS_Math.isAngleBetween θ st.bordersData.getAngle1 st.bordersData.getAngle2
      st.bordersData.isReversed := hθ
  have hArc : st.bordersData.data.isArc =
      pbool (¬ st.bordersData.data.angle1 = 0 ∨ ¬ st.bordersData.data.angle2 = 0) := rfl
  have h := boundingRect_contains st.bordersData hArc θ hθ'
  have hpt : st.calculateBorders.getEllipsePoint θ = st.bordersData.getEllipsePoint θ :=
    getEllipsePoint_congr _ _ rfl rfl rfl θ
  rw [hpt, (RS_Ellipse.calcB_proj _).2.2.2.2.2.2.2.1, (RS_Ellipse.calcB_proj _).2.2.2.2.2.2.2.2]
  exact ⟨minPx_le_of_inBoxX _ _ h.1, le_maxPx_of_inBoxX _ _ h.1,
    minPy_le_of_inBoxY _ _ h.2, le_maxPy_of_inBoxY _ _ h.2⟩

/-- Witness for C6 at the concrete whole ellipse and a concrete angle. -/
theorem calculateBorders_contains_witness :
    RS_Math.isAngleBetween 1 E0.calculateBorders.getAngle1
      E0.calculateBorders.getAngle2 E0.calculateBorders.isReversed ∧
    (E0.calculateBorders.minV.x ≤ (E0.calculateBorders.getEllipsePoint 1).x ∧
      (E0.calculateBorders.getEllipsePoint 1).x ≤ E0.calculateBorders.maxV.x ∧
      E0.calculateBorders.minV.y ≤ (E0.calculateBorders.getEllipsePoint 1).y ∧
      (E0.calculateBorders.getEllipsePoint 1).y ≤ E0.calculateBorders.maxV.y) := by
  have hb : RS_Math.isAngleBetween 1 E0.calculateBorders.getAngle1
      E0.calculateBorders.getAngle2 E0.calculateBorders.isReversed := by
    unfold RS_Math.isAngleBetween
    left
    rw [show E0.calculateBorders.getAngle1 = E0.bordersData.data.angle1 from rfl,
      show E0.calculateBorders.getAngle2 = E0.bordersData.data.angle2 from rfl,
      E0_borders_angle1, E0_borders_angle2]
    rw [Bool.cond_self, sub_zero]
    exact correctAngle_eq_self le_rfl (by positivity)
  exact ⟨hb, calculateBorders_contains E0 1 hb⟩

namespace RS_Ellipse

/-- RS_Ellipse::getNearestEndpoint: the nearer of the two arc endpoints;
invalid for a whole ellipse.  The second component is the distance the code
writes through the output pointer. -/
def getNearestEndpoint (st : RS_Ellipse) (coord : RS_Vector) : RS_Vector × Option ℝ :=
  if st.isEllipticArc = false then (RS_Vector.invalid, none)
  else
    let startpoint := st.getStartpoint
    let endpoint := st.getEndpoint
    let dist1 := (startpoint.sub coord).squared
    let dist2 := (endpoint.sub coord).squared
    if dist2 < dist1 then (endpoint, some (Real.sqrt dist2))
    else (startpoint, some (Real.sqrt dist1))

end RS_Ellipse

/-- Modelled from the spec: the delegate line entity computation used by the
degenerate straight-line fallback (RS_Line::getNearestDist is outside this
file): walk the given distance inward from each endpoint along the segment
direction and return the candidate nearer to the query point. -/
def RS_Line.getNearestDist (p1 p2 : RS_Vector) (distance : ℝ) (coord : RS_Vector) :
    RS_Vector × Option ℝ :=
  let a := (p2.sub p1).angle
  let dv : RS_Vector := ⟨true, distance * Real.cos a, distance * Real.sin a⟩
  let c1 := p1.move dv
  let c2 := p2.sub dv
  if (c1.sub coord).squared ≤ (c2.sub coord).squared then (c1, some (c1.distanceTo coord))
  else (c2, some (c2.distanceTo coord))

/-- Modelled from the spec: the bounded second-order (Halley) root iteration
from boost used to invert the arc-length function; modelled as returning a
root of the equation inside the bracket when one exists, and the seed
otherwise. -/
def halleyRoot (f : ℝ → ℝ) (target guess lo hi : ℝ) : ℝ :=
  if h : ∃ z, lo ≤ z ∧ z ≤ hi ∧ f z = target then h.choose else guess

namespace RS_Ellipse

/-- getNearestDistHelper: find the new end point after trimming by the given
amount, choosing the trimmed end from the mouse position and inverting the
arc-length function by the Halley iteration. -/
def getNearestDistHelper (e : RS_Ellipse) (trimAmount : ℝ) (coord : RS_Vector) :
    RS_Vector × Option ℝ :=
  let x1 := e.getAngle1
  let guess := x1 + π
  let wholeLength := e.getEllipseLength2 0 0
  let trimEnd : Prop := coord.squaredTo e.getStartpoint ≤ coord.squaredTo e.getEndpoint
  let trimmed := if trimEnd then
      (if 0 < trimAmount then wholeLength - trimAmount else -trimAmount)
    else e.cachedLength + trimAmount
  let sol := halleyRoot (fun z => e.getEllipseLength1 z) trimmed guess x1
    (x1 + 2 * π - RS_TOLERANCE_ANGLE)
  let vp := e.getEllipsePoint sol
  (vp, some (vp.distanceTo coord))

/-- The normalized copy built at the top of RS_Ellipse::getNearestDist: the
freshly constructed entity on the same data, major/minor switched when the
ratio exceeds one, and unreversed by swapping the angles. -/
def nearestDistNormalized (st : RS_Ellipse) : RS_Ellipse :=
  let e0 := mkEllipse st.data
  let e1 := if 1 < e0.getRatio then e0.switchMajorMinor.getD e0 else e0
  if e1.isReversed then
    { e1 with data := { e1.data with
        angle1 := e1.data.angle2, angle2 := e1.data.angle1, reversed := false } }
  else e1

/-- The arc length of the kept span computed inside getNearestDist, with the
positive-orientation correction of the end angle. -/
def nearestDistTotalLength (st : RS_Ellipse) : ℝ :=
  let e := st.nearestDistNormalized
  let x1 := e.getAngle1
  let x2 := e.getAngle2
  let x2 := if x2 < x1 + RS_TOLERANCE_ANGLE then x2 + 2 * π else x2
  e.getEllipseLength2 x1 x2

/-- RS_Ellipse::getNearestDist: the point at a given arc-length offset from
the start point; undefined for whole ellipses and tiny radii, delegating to
a straight line for tiny ratios, rejecting offsets beyond the total length
and collapsing offsets within tolerance of it to the nearer endpoint. -/
def getNearestDist (st : RS_Ellipse) (distance : ℝ) (coord : RS_Vector) :
    RS_Vector × Option ℝ :=
  if st.isEllipticArc = false then (RS_Vector.invalid, none)
  else
    let e := st.nearestDistNormalized
    if e.getMajorRadius < RS_TOLERANCE then (RS_Vector.invalid, none)
    else if st.getRatio < RS_TOLERANCE then
      RS_Line.getNearestDist e.minV e.maxV distance coord
    else
      let l0 := st.nearestDistTotalLength
      if l0 + RS_TOLERANCE < distance then (RS_Vector.invalid, none)
      else if l0 - RS_TOLERANCE < distance then st.getNearestEndpoint coord
      else getNearestDistHelper e distance coord

end RS_Ellipse

theorem ellint_2C_zero : ellint_2C 0 = π / 2 := by
  unfold ellint_2C
  have h : ∀ t : ℝ, Real.sqrt (1 - 0 ^ 2 * Real.sin t ^ 2) = 1 := by
    intro t
    norm_num
  simp only [h, intervalIntegral.integral_const, smul_eq_mul, mul_one, sub_zero]

theorem arcE_angles_cond :
    ¬ (|arcE.data.angle1| < RS_TOLERANCE_ANGLE ∧ |arcE.data.angle2| < RS_TOLERANCE_ANGLE) := by
  intro h
  have h2 := h.2
  rw [show arcE.data.angle2 = π from rfl, abs_of_pos Real.pi_pos] at h2
  have := Real.pi_gt_three
  norm_num [RS_TOLERANCE_ANGLE] at h2
  linarith

/-- The normalized copy built from the concrete arc's data: ratio 1, not
reversed, angles 0 and pi, unit major radius. -/
theorem mkE_facts :
    (RS_Ellipse.mkEllipse arcE.data).getRatio = 1 ∧
    (RS_Ellipse.mkEllipse arcE.data).isReversed = false ∧
    (RS_Ellipse.mkEllipse arcE.data).getAngle1 = 0 ∧
    (RS_Ellipse.mkEllipse arcE.data).getAngle2 = π ∧
    (RS_Ellipse.mkEllipse arcE.data).getMajorRadius = 1 := by
  refine ⟨rfl, rfl, ?_, ?_, ?_⟩
  · show (RS_Ellipse.calculateBorders _).data.angle1 = 0
    rw [(RS_Ellipse.calcB_proj _).2.2.2.2.1]
    rw [if_neg arcE_angles_cond]
    rfl
  · show (RS_Ellipse.calculateBorders _).data.angle2 = π
    rw [(RS_Ellipse.calcB_proj _).2.2.2.2.2.1]
    rw [if_neg arcE_angles_cond]
    rfl
  · show RS_Vector.magnitude (RS_Ellipse.mkEllipse arcE.data).data.majorP = 1
    rw [show (RS_Ellipse.mkEllipse arcE.data).data.majorP = ⟨true, 1, 0⟩ from rfl]
    rw [RS_Vector.magnitude]
    norm_num

theorem arcE_norm : arcE.nearestDistNormalized = RS_Ellipse.mkEllipse arcE.data := by
  delta RS_Ellipse.nearestDistNormalized
  simp only []
  rw [if_neg (by rw [mkE_facts.1]; norm_num : ¬ 1 < (RS_Ellipse.mkEllipse arcE.data).getRatio)]
  rw [if_neg (by rw [mkE_facts.2.1]; simp :
    ¬ (RS_Ellipse.mkEllipse arcE.data).isReversed = true)]

theorem arcE_l0 : arcE.nearestDistTotalLength = π := by
  have hπ3 := Real.pi_gt_three
  have hπ := Real.pi_pos
  have hTA : RS_TOLERANCE_ANGLE = 1.0e-8 := rfl
  have hTApos : (0:ℝ) < RS_TOLERANCE_ANGLE := by rw [hTA]; norm_num
  have hTAlt : RS_TOLERANCE_ANGLE < π := by rw [hTA]; linarith
  delta RS_Ellipse.nearestDistTotalLength
  simp only []
  rw [arcE_norm, mkE_facts.2.2.1, mkE_facts.2.2.2.1]
  rw [if_neg (by intro hc; linarith : ¬ π < 0 + RS_TOLERANCE_ANGLE)]
  delta RS_Ellipse.getEllipseLength2
  simp only []
  rw [mkE_facts.2.2.2.2, mkE_facts.1]
  have hk : Real.sqrt (1 - 1 * 1) = 0 := by norm_num
  rw [hk]
  have hy1 : correctAngle 0 = 0 := correctAngle_eq_self le_rfl (by positivity)
  have hy2 : correctAngle π = π := correctAngle_eq_self hπ.le (by linarith)
  rw [hy1, hy2]
  rw [if_neg (by intro hc; linarith : ¬ π < 0 + RS_TOLERANCE_ANGLE)]
  rw [if_pos le_rfl]
  have htr1 : rtrunc ((π + RS_TOLERANCE_ANGLE) / π) = 1 := by
    rw [rtrunc_of_nonneg (div_nonneg (by linarith) hπ.le)]
    rw [show (π + RS_TOLERANCE_ANGLE) / π = RS_TOLERANCE_ANGLE / π + 1 by field_simp; ring]
    rw [show (RS_TOLERANCE_ANGLE / π + 1 : ℝ) = RS_TOLERANCE_ANGLE / π + (1:ℤ) by push_cast; ring]
    rw [Int.floor_add_int]
    have h0 : ⌊RS_TOLERANCE_ANGLE / π⌋ = 0 := by
      apply Int.floor_eq_zero_iff.mpr
      constructor
      · exact (div_pos hTApos hπ).le
      · rw [div_lt_one hπ]
        linarith
    rw [h0]
    norm_num
  have htr0 : rtrunc ((0 + RS_TOLERANCE_ANGLE) / π) = 0 := by
    rw [rtrunc_of_nonneg (div_nonneg (by linarith) hπ.le)]
    apply Int.floor_eq_zero_iff.mpr
    constructor
    · exact div_nonneg (by linarith) hπ.le
    · rw [div_lt_one hπ]
      linarith
  rw [htr1, htr0]
  have hm0 : cfmod 0 π = 0 := by
    unfold cfmod
    rw [zero_div, rtrunc_of_nonneg le_rfl, Int.floor_zero]
    norm_num
  have hm1 : cfmod π π = 0 := by
    unfold cfmod
    rw [div_self hπ.ne', rtrunc_of_nonneg (by norm_num), Int.floor_one]
    norm_num
  rw [hm0, hm1]
  rw [if_neg (by rw [hTA]; norm_num)]
  rw [ellint_2C_zero]
  norm_num
  ring

/-- The rejection branch of getNearestDist: an arc with ratio at least the
tolerance rejects an offset beyond the total length plus the tolerance. -/
theorem getNearestDist_reject (st : RS_Ellipse) (distance : ℝ) (coord : RS_Vector)
    (hArc : st.isEllipticArc = true) (hr : RS_TOLERANCE ≤ st.getRatio)
    (hd : st.nearestDistTotalLength + RS_TOLERANCE < distance) :
    st.getNearestDist distance coord = (RS_Vector.invalid, none) := by
  delta RS_Ellipse.getNearestDist
  simp only []
  rw [if_neg (by rw [hArc]; simp)]
  by_cases hmr : st.nearestDistNormalized.getMajorRadius < RS_TOLERANCE
  · rw [if_pos hmr]
  · rw [if_neg hmr, if_neg (not_lt.mpr hr), if_pos hd]

/-- C4: the behavior of the arc-length-offset query: invalid for a whole
ellipse; for an arc with ratio at least the tolerance, offsets beyond the
total length by more than the tolerance give the invalid sentinel while
offsets within tolerance of the total length collapse to the nearer endpoint;
for ratio below the tolerance the query delegates to the straight-line
computation on the normalized copy. -/
theorem getNearestDist_cases (st : RS_Ellipse) (distance : ℝ) (coord : RS_Vector) :
    (st.isEllipticArc = false →
      st.getNearestDist distance coord = (RS_Vector.invalid, none)) ∧
    (st.isEllipticArc = true → RS_TOLERANCE ≤ st.getRatio →
      st.nearestDistTotalLength + RS_TOLERANCE < distance →
      st.getNearestDist distance coord = (RS_Vector.invalid, none)) ∧
    (st.isEllipticArc = true → RS_TOLERANCE ≤ st.getRatio →
      RS_TOLERANCE ≤ st.nearestDistNormalized.getMajorRadius →
      |distance - st.nearestDistTotalLength| < RS_TOLERANCE →
      st.getNearestDist distance coord = st.getNearestEndpoint coord) ∧
    (st.isEllipticArc = true → st.getRatio < RS_TOLERANCE →
      RS_TOLERANCE ≤ st.nearestDistNormalized.getMajorRadius →
      st.getNearestDist distance coord =
        RS_Line.getNearestDist st.nearestDistNormalized.minV
          st.nearestDistNormalized.maxV distance coord) := by
  refine ⟨?_, ?_, ?_, ?_⟩
  · intro h
    delta RS_Ellipse.getNearestDist
    simp only []
    rw [if_pos h]
  · intro hArc hr hd
    exact getNearestDist_reject st distance coord hArc hr hd
  · intro hArc hr hmr habs
    delta RS_Ellipse.getNearestDist
    simp only []
    rw [if_neg (by rw [hArc]; simp)]
    rw [if_neg (not_lt.mpr hmr), if_neg (not_lt.mpr hr)]
    rw [abs_lt] at habs
    rw [if_neg (by linarith [habs.2])]
    rw [if_pos (by linarith [habs.1])]
  · intro hArc hr hmr
    delta RS_Ellipse.getNearestDist
    simp only []
    rw [if_neg (by rw [hArc]; simp)]
    rw [if_neg (not_lt.mpr hmr), if_pos hr]

/-- Witness for C4: a whole ellipse yields the invalid sentinel, and a
concrete arc with an offset beyond its total length yields the invalid
sentinel. -/
theorem getNearestDist_cases_witness :
    E0.getNearestDist 5 ⟨true, 0, 0⟩ = (RS_Vector.invalid, none) ∧
    arcE.getNearestDist (π + 1) ⟨true, 0, 0⟩ = (RS_Vector.invalid, none) := by
  constructor
  · exact (getNearestDist_cases E0 5 ⟨true, 0, 0⟩).1 rfl
  · refine (getNearestDist_cases arcE (π + 1) ⟨true, 0, 0⟩).2.1 rfl ?_ ?_
    · rw [show arcE.getRatio = 1 from rfl]
      norm_num [RS_TOLERANCE]
    · rw [arcE_l0]
      norm_num [RS_TOLERANCE]

/-- Counterexample to C5: a positive trim amount strictly greater than the
total arc length (by more than the tolerance) yields the invalid sentinel,
not the nearest endpoint. -/
theorem getNearestDist_beyond_not_endpoint :
    0 < π + 1 ∧ arcE.nearestDistTotalLength < π + 1 ∧
    arcE.getNearestDist (π + 1) ⟨true, 0, 0⟩ = (RS_Vector.invalid, none) ∧
    arcE.getNearestDist (π + 1) ⟨true, 0, 0⟩ ≠ arcE.getNearestEndpoint ⟨true, 0, 0⟩ := by
  have hπ := Real.pi_pos
  have hinv : arcE.getNearestDist (π + 1) ⟨true, 0, 0⟩ = (RS_Vector.invalid, none) := by
    refine getNearestDist_reject arcE (π + 1) ⟨true, 0, 0⟩ rfl ?_ ?_
    · rw [show arcE.getRatio = 1 from rfl]
      norm_num [RS_TOLERANCE]
    · rw [arcE_l0]
      norm_num [RS_TOLERANCE]
  refine ⟨by linarith, by rw [arcE_l0]; linarith, hinv, ?_⟩
  have hne : (arcE.getNearestEndpoint ⟨true, 0, 0⟩).2 ≠ none := by
    delta RS_Ellipse.getNearestEndpoint
    simp only []
    rw [if_neg (by simp [show arcE.isEllipticArc = true from rfl])]
    split <;> simp
  intro h
  apply hne
  rw [← h, hinv]

/-- C5 amended: a positive trim amount exceeding the total arc length by more
than the tolerance is rejected with the invalid sentinel (no extrapolation
past the end); only amounts within the tolerance window around the total
length collapse to the endpoint nearest the query point. -/
theorem trim_beyond_length (st : RS_Ellipse) (distance : ℝ) (coord : RS_Vector) :
    (st.isEllipticArc = true → RS_TOLERANCE ≤ st.getRatio → 0 < distance →
      st.nearestDistTotalLength + RS_TOLERANCE < distance →
      st.getNearestDist distance coord = (RS_Vector.invalid, none)) ∧
    (st.isEllipticArc = true → RS_TOLERANCE ≤ st.getRatio →
      RS_TOLERANCE ≤ st.nearestDistNormalized.getMajorRadius →
      st.nearestDistTotalLength < distance →
      distance ≤ st.nearestDistTotalLength + RS_TOLERANCE →
      st.getNearestDist distance coord = st.getNearestEndpoint coord) := by
  constructor
  · intro hArc hr _ hd
    exact getNearestDist_reject st distance coord hArc hr hd
  · intro hArc hr hmr hlo hhi
    have htolpos : (0:ℝ) < RS_TOLERANCE := by norm_num [RS_TOLERANCE]
    delta RS_Ellipse.getNearestDist
    simp only []
    rw [if_neg (by rw [hArc]; simp)]
    rw [if_neg (not_lt.mpr hmr), if_neg (not_lt.mpr hr)]
    rw [if_neg (by linarith), if_pos (by linarith)]

/-- Witness for the amended C5 on the concrete arc: rejection just beyond the
tolerance window and endpoint collapse inside it. -/
theorem trim_beyond_length_witness :
    arcE.getNearestDist (π + 1) ⟨true, 0, 0⟩ = (RS_Vector.invalid, none) ∧
    arcE.getNearestDist (π + RS_TOLERANCE) ⟨true, 0, 0⟩ =
      arcE.getNearestEndpoint ⟨true, 0, 0⟩ := by
  have hπ := Real.pi_pos
  have hrat : RS_TOLERANCE ≤ arcE.getRatio := by
    rw [show arcE.getRatio = 1 from rfl]
    norm_num [RS_TOLERANCE]
  constructor
  · refine (trim_beyond_length arcE (π + 1) ⟨true, 0, 0⟩).1 rfl hrat (by linarith) ?_
    rw [arcE_l0]
    norm_num [RS_TOLERANCE]
  · refine (trim_beyond_length arcE (π + RS_TOLERANCE) ⟨true, 0, 0⟩).2 rfl hrat ?_ ?_ ?_
    · rw [arcE_norm, mkE_facts.2.2.2.2]
      norm_num [RS_TOLERANCE]
    · rw [arcE_l0]
      norm_num [RS_TOLERANCE]
    · rw [arcE_l0]

/-- ClosestEllipticPoint::ds2D1: the first derivative of the squared distance
over the elliptic angle. -/
def ds2D1 (c2 ax2 by2 t : ℝ) : ℝ :=
  c2 * Real.sin (2 * t) + ax2 * Real.sin t - by2 * Real.cos t

/-- ClosestEllipticPoint::ds2D2: the second derivative of the squared distance
over the elliptic angle. -/
def ds2D2 (c2 ax2 by2 t : ℝ) : ℝ :=
  2 * c2 * Real.cos (2 * t) + ax2 * Real.cos t + by2 * Real.sin t

/-- ClosestEllipticPoint::getTheta's Newton-Raphson loop: at most the given
number of steps, stopping early when either derivative falls under the
tolerance. -/
def newtonTheta (c2 ax2 by2 : ℝ) : ℕ → ℝ → ℝ
  | 0, theta => theta
  | n + 1, theta =>
      let d1 := ds2D1 c2 ax2 by2 theta
      let d2 := ds2D2 c2 ax2 by2 theta
      if |d2| < RS_TOLERANCE ∨ |d1| < RS_TOLERANCE then theta
      else newtonTheta c2 ax2 by2 n (theta - d1 / d2)

/-- ClosestEllipticPoint(a, b, point).getTheta(): sixteen Newton steps from
the polar angle of the query point. -/
def closestEllipticTheta (a b : ℝ) (point : RS_Vector) : ℝ :=
  let c2 := b * b - a * a
  let ax2 := 2 * a * point.x
  let by2 := 2 * b * point.y
  newtonTheta c2 ax2 by2 16 (atan2 point.y point.x)

/-- Modelled from the spec: RS_Math::quarticSolver (outside this file)
returns the real roots of the monic quartic with the given lower
coefficients. -/
def RS_Math.quarticSolver (ce : Fin 4 → ℝ) : List ℝ :=
  (Polynomial.roots (Polynomial.X ^ 4 + Polynomial.C (ce 0) * Polynomial.X ^ 3
    + Polynomial.C (ce 1) * Polynomial.X ^ 2 + Polynomial.C (ce 2) * Polynomial.X
    + Polynomial.C (ce 3))).toList

/-- The candidate loop of RS_Ellipse::getNearestPointOnEntity: for each
cosine root, recover the sine, skip candidates with a negative second
derivative or farther than the best so far, and keep the best point and its
squared distance.  As in the code, the comparison point `ret` starts as the
transformed query point and is overwritten by each accepted candidate. -/
def nearestLoop (twoa2b2 twoax twoby a b : ℝ) :
    List ℝ → RS_Vector → ℝ → RS_Vector × ℝ
  | [], ret, dDistance => (ret, dDistance)
  | cosTheta :: rest, ret, dDistance =>
      let sinTheta := twoby * cosTheta / (twoax - twoa2b2 * cosTheta)
      let d2 := twoa2b2 + (twoax - 2 * cosTheta * twoa2b2) * cosTheta + twoby * sinTheta
      if d2 < 0 then nearestLoop twoa2b2 twoax twoby a b rest ret dDistance
      else
        let vp3 : RS_Vector := ⟨true, a * cosTheta, b * sinTheta⟩
        let d := (vp3.sub ret).squared
        if ret.valid = true ∧ dDistance < d then
          nearestLoop twoa2b2 twoax twoby a b rest ret dDistance
        else nearestLoop twoa2b2 twoax twoby a b rest vp3 d

namespace RS_Ellipse

/-- RS_Ellipse::getNearestPointOnEntity: an invalid query point yields the
invalid sentinel and the RS_MAXDOUBLE distance; otherwise the query point is
moved to the ellipse frame, the cosine candidates come from the quartic (or,
for near-circular or near-center cases, from the Newton iteration), the best
candidate is mapped back to world coordinates, and with onEntity set a result
off the kept arc span falls back to the nearest endpoint.  The second
component is the distance written through the output pointer (none when the
code leaves it untouched). -/
def getNearestPointOnEntity (st : RS_Ellipse) (coord : RS_Vector)
    (onEntity : Bool) : RS_Vector × Option ℝ :=
  if coord.valid = false then (RS_Vector.invalid, some RS_MAXDOUBLE)
  else
    let ret0 := (coord.move st.getCenter.neg).rotateAngle (-st.getAngle)
    let a := st.getMajorRadius
    let b := a * st.getRatio
    let twoa2b2 := 2 * (a * a - b * b)
    let twoax := 2 * a * ret0.x
    let twoby := 2 * b * ret0.y
    let a0 := twoa2b2 * twoa2b2
    let roots :=
      if RS_TOLERANCE < a0 ∧ RS_TOLERANCE < |st.getRatio - 1| ∧
          RS_TOLERANCE2 < ret0.squared then
        RS_Math.quarticSolver (fun i =>
          if i = 0 then -2 * twoax / twoa2b2
          else if i = 1 then (twoax * twoax + twoby * twoby) / a0 - 1
          else if i = 2 then 2 * twoax / twoa2b2
          else -(twoax * twoax) / a0)
      else
        let theta := closestEllipticTheta a b ret0
        [Real.cos theta, -Real.cos theta]
    if roots = [] then (coord, none)
    else
      let p := nearestLoop twoa2b2 twoax twoby a b roots ret0
        (RS_MAXDOUBLE * RS_MAXDOUBLE)
      let ret1 := (p.1.rotateAngle st.getAngle).move st.getCenter
      let dd := Real.sqrt p.2
      if onEntity = true then
        if RS_Math.isAngleBetween (st.getEllipseAngle ret1) st.getAngle1
            st.getAngle2 st.isReversed then (ret1, some dd)
        else st.getNearestEndpoint coord
      else (ret1, some dd)

end RS_Ellipse

/-- C10: getNearestPointOnEntity on an invalid query point returns the
invalid-vector sentinel and stores the RS_MAXDOUBLE sentinel through the
distance output; in this functional embedding the query returns no state, so
the constness of the member (the state is never mutated) holds by
construction. -/
theorem getNearestPointOnEntity_invalid (st : RS_Ellipse) (coord : RS_Vector)
    (onEntity : Bool) (h : coord.valid = false) :
    st.getNearestPointOnEntity coord onEntity =
      (RS_Vector.invalid, some RS_MAXDOUBLE) := by
  delta RS_Ellipse.getNearestPointOnEntity
  rw [if_pos h]

/-- Witness for C10: the invalid vector as query point on the concrete
ellipse E0. -/
theorem getNearestPointOnEntity_invalid_witness :
    RS_Vector.invalid.valid = false ∧
    E0.getNearestPointOnEntity RS_Vector.invalid true =
      (RS_Vector.invalid, some RS_MAXDOUBLE) :=
  ⟨rfl, getNearestPointOnEntity_invalid E0 RS_Vector.invalid true rfl⟩
